import Mathlib

/-!
# AdaptiveCards UWP renderer: input values and image loading

A shallow embedding of `source/uwp/Renderer/lib/InputValue.cpp` and of the image methods of
`XamlBuilder` in `source/uwp/Renderer/lib/AdaptiveImageRenderer.cpp`.

* Strings (`winrt::hstring`, `std::string`) are Lean strings; the conversions
  `HStringToUTF8` / `UTF8ToHString` are the identity on them.
* A call that can throw or terminate the process returns `Option`, with `none`
  for the throw.
* Finite `double` values are rationals.
* Services of the C++ standard library, of the WinRT platform and of the shared
  object model that the file calls into are the fields of `Platform`.
* An image method returns the builder afterwards and the list of the calls it made on the
  platform; a completion handler takes the builder as an `Option`, `none` once it is destroyed.
-/

namespace AdaptiveCards.Rendering.Uwp

/-- Services `InputValue.cpp` calls into and does not define. -/
structure Platform where
  /-- The function `std::stod`; `none` when it throws. -/
  stod : String → Option ℚ
  /-- Construction of a `std::regex` from a pattern, `none` when the constructor throws
  `std::regex_error`; the compiled pattern is the `std::regex_match` test of a whole subject. -/
  regex : String → Option (String → Bool)
  /-- The function `ParseUtil::ToLowercase` of the shared object model. -/
  ToLowercase : String → String
  /-- The function `DateTimePreparser::TryParseSimpleTime` of the shared object model; `none` when
  it returns false, the two `unsigned int` outputs otherwise. -/
  TryParseSimpleTime : String → Option (Nat × Nat)
  /-- The method `DateTimeFormatter::Format` for the template
  `{year.full}-{month.integer(2)}-{day.integer(2)}`. -/
  Format : Int → String

/-! ## Input definitions (the object model's declarative elements) -/

/-- The text input definition: `IsRequired` and `Regex`. -/
structure AdaptiveTextInput where
  IsRequired : Bool
  Regex : String

/-- The number input definition: `IsRequired` and the nullable `Min` and `Max`. -/
structure AdaptiveNumberInput where
  IsRequired : Bool
  Min : Option ℚ
  Max : Option ℚ

/-! ## The base rule -/

/-- The method `InputValue::IsValueValid`. `CurrentValue()` is virtual and is called only when the
input is required; its outcome is passed in. -/
def InputValue.IsValueValid (isRequired : Bool) (CurrentValue : Option String) : Option Bool :=
  if isRequired then
    match CurrentValue with
    | none => none
    | some currentValue => some (!currentValue.isEmpty)
  else
    some true

/-! ## Text and password -/

/-- The method `TextInputBase::IsValueValid`; `CurrentValue` is the outcome of the virtual
`CurrentValue()`. -/
def TextInputBase.IsValueValid (p : Platform) (input : AdaptiveTextInput)
    (CurrentValue : Option String) : Option Bool :=
  match InputValue.IsValueValid input.IsRequired CurrentValue with
  | none => none
  | some false => some false
  | some true =>
    match CurrentValue with
    | none => none
    | some currentValue =>
      if !input.Regex.isEmpty && !currentValue.isEmpty then
        match p.regex input.Regex with
        | none => none
        | some pattern => some (pattern currentValue)
      else
        some true

/-! ## Number -/

/-- The method `NumberInputValue::IsValueValid`. The `catch (...)` turns a throw of `std::stod`
into `isValid = false`. -/
def NumberInputValue.IsValueValid (p : Platform) (input : AdaptiveNumberInput)
    (CurrentValue : Option String) : Option Bool :=
  match InputValue.IsValueValid input.IsRequired CurrentValue with
  | none => none
  | some false => some false
  | some true =>
    match CurrentValue with
    | none => none
    | some currentValue =>
      if !currentValue.isEmpty then
        match p.stod currentValue with
        | none => some false
        | some currentDouble =>
          let isValid := true
          let isValid :=
            match input.Max with
            | some maxDouble => decide (currentDouble ≤ maxDouble)
            | none => isValid
          let isValid :=
            match input.Min with
            | some minDouble => decide (currentDouble ≥ minDouble)
            | none => isValid
          some isValid
      else
        some true

/-! ## Date -/

/-- The date input definition. -/
structure AdaptiveDateInput where
  IsRequired : Bool

/-- The method `DateInputValue::CurrentValue`; `Date` is the date picker's nullable date. -/
def DateInputValue.CurrentValue (p : Platform) (Date : Option Int) : String :=
  match Date with
  | some date => p.Format date
  | none => ""

/-! ## Time -/

/-- The time input definition: `IsRequired` and the `Min` and `Max` strings. -/
structure AdaptiveTimeInput where
  IsRequired : Bool
  Min : String
  Max : String

/-- The conversion `%02llu`: decimal, zero-padded to width 2. -/
def format02llu (n : Nat) : String :=
  if n < 10 then "0" ++ toString n else toString n

/-- The call `sprintf_s(buffer, sizeOfBuffer, "%02llu:%02llu", hours, minutes)`: the text when it
fits the buffer with its terminating zero, `none` (the invalid parameter handler) otherwise. -/
def sprintf_s (sizeOfBuffer : Nat) (hours minutes : Nat) : Option String :=
  let out := format02llu hours ++ ":" ++ format02llu minutes
  if out.length < sizeOfBuffer then some out else none

/-- The method `TimeInputValue::CurrentValue`; `SelectedTime` is the time picker's nullable time
span, the `int64_t` count of 100 ns ticks. The quotient is converted to `uint64_t`. -/
def TimeInputValue.CurrentValue (SelectedTime : Option Int) : Option String :=
  match SelectedTime with
  | none => some ""
  | some count =>
    let totalMinutes : Nat := (((count.tdiv 10000000).tdiv 60) % 18446744073709551616).toNat
    let hours : Nat := totalMinutes / 60
    let minutesPastTheHour : Nat := totalMinutes - (hours * 60)
    sprintf_s 6 hours minutesPastTheHour

/-- The method `TimeInputValue::IsValueValid`. `minHours * 60 + minMinutes` is `unsigned int`
arithmetic; the products with the tick factors are below `2 ^ 63` and need no reduction. -/
def TimeInputValue.IsValueValid (p : Platform) (input : AdaptiveTimeInput)
    (SelectedTime : Option Int) : Option Bool :=
  match InputValue.IsValueValid input.IsRequired (TimeInputValue.CurrentValue SelectedTime) with
  | none => none
  | some false => some false
  | some true =>
    match SelectedTime with
    | none => some true
    | some currentTime =>
      let isMaxMinValid := true
      let isMaxMinValid :=
        if !input.Min.isEmpty then
          match p.TryParseSimpleTime input.Min with
          | some (minHours, minMinutes) =>
            let minTime : Int := (((minHours * 60 + minMinutes) % 4294967296 : Nat) : Int) * 1000000 * 60
            isMaxMinValid && decide (currentTime ≥ minTime)
          | none => isMaxMinValid
        else isMaxMinValid
      let isMaxMinValid :=
        if !input.Max.isEmpty then
          match p.TryParseSimpleTime input.Max with
          | some (maxHours, maxMinutes) =>
            let maxTime : Int := (((maxHours * 60 + maxMinutes) % 4294967296 : Nat) : Int) * 10000000 * 60
            isMaxMinValid && decide (currentTime ≤ maxTime)
          | none => isMaxMinValid
        else isMaxMinValid
      some isMaxMinValid

/-! ## Toggle -/

/-- The toggle input definition. -/
structure AdaptiveToggleInput where
  IsRequired : Bool
  ValueOn : String
  ValueOff : String

/-- The method `ToggleInputValue::CurrentValue`; `checkedValue` is what
`XamlHelpers::GetToggleValue` reads from the check box. -/
def ToggleInputValue.CurrentValue (input : AdaptiveToggleInput) (checkedValue : Bool) : String :=
  if checkedValue then input.ValueOn else input.ValueOff

/-- The method `ToggleInputValue::IsValueValid`. -/
def ToggleInputValue.IsValueValid (input : AdaptiveToggleInput) (checkedValue : Bool) : Bool :=
  let meetsRequirement := true
  if input.IsRequired then checkedValue else meetsRequirement

/-! ## Choice sets -/

/-- One choice of a choice set: `Title` and `Value`. -/
structure AdaptiveChoiceInput where
  Title : String
  Value : String
  deriving DecidableEq, Repr

/-- The choice set input definition. -/
structure AdaptiveChoiceSetInput where
  IsRequired : Bool
  IsMultiSelect : Bool
  Choices : List AdaptiveChoiceInput

/-- The function `GetChoiceValue`; `selectedIndex` is a `uint32_t`, against which the literal
`-1` is `4294967295`. `GetAt` throws on an index out of range. -/
def GetChoiceValue (choiceInput : AdaptiveChoiceSetInput) (selectedIndex : Nat) : Option String :=
  if selectedIndex ≠ 4294967295 then
    match choiceInput.Choices[selectedIndex]? with
    | some choice => some choice.Value
    | none => none
  else
    some ""

/-- The method `CompactChoiceSetInputValue::CurrentValue`; `SelectedIndex` is the selector's
`int32_t` index, converted to `uint32_t` at the call of `GetChoiceValue`. -/
def CompactChoiceSetInputValue.CurrentValue (input : AdaptiveChoiceSetInput) (SelectedIndex : Int) :
    Option String :=
  let selectedIndex : Nat := (SelectedIndex % 4294967296).toNat
  GetChoiceValue input selectedIndex

/-- The function `std::string::substr(pos, n)` for `pos` within the string. Positions count
characters; the file uses it only to drop a final comma, which is one byte and one character. -/
def substr (s : String) (pos n : Nat) : String :=
  ⟨(s.data.drop pos).take n⟩

/-- The multi-select loop of `ExpandedChoiceSetInputValue::CurrentValue` over the panel children
left to visit, each given by its toggle value, from the running `index` (a `uint32_t`) and the
text gathered so far. -/
def ExpandedChoiceSetInputValue.gatherMultiSelect (input : AdaptiveChoiceSetInput) :
    List Bool → Nat → String → Option String
  | [], _, multiSelectValues => some multiSelectValues
  | element :: panelChildren, index, multiSelectValues =>
    if element then
      match GetChoiceValue input index with
      | none => none
      | some choiceValue =>
        gatherMultiSelect input panelChildren ((index + 1) % 4294967296)
          (multiSelectValues ++ (choiceValue ++ ","))
    else
      gatherMultiSelect input panelChildren ((index + 1) % 4294967296) multiSelectValues

/-- The single-select loop of `ExpandedChoiceSetInputValue::CurrentValue`: the index of the first
child whose toggle value is set, `uint32_t(-1)` when there is none. -/
def ExpandedChoiceSetInputValue.findSelectedIndex : List Bool → Nat → Nat
  | [], _ => 4294967295
  | element :: panelChildren, index =>
    if element then index else findSelectedIndex panelChildren ((index + 1) % 4294967296)

/-- The method `ExpandedChoiceSetInputValue::CurrentValue`; `panelChildren` are the toggle values
of the panel's children, in order. -/
def ExpandedChoiceSetInputValue.CurrentValue (input : AdaptiveChoiceSetInput)
    (panelChildren : List Bool) : Option String :=
  if input.IsMultiSelect then
    match ExpandedChoiceSetInputValue.gatherMultiSelect input panelChildren 0 "" with
    | none => none
    | some multiSelectValues =>
      if !multiSelectValues.isEmpty then
        some (substr multiSelectValues 0 (multiSelectValues.length - 1))
      else
        some multiSelectValues
  else
    let selectedIndex := ExpandedChoiceSetInputValue.findSelectedIndex panelChildren 0
    GetChoiceValue input selectedIndex

/-- The method `FilteredChoiceSetInputValue::GetSelectedChoice`; `Text` is the text of the
auto-suggest box and `none` the null choice. -/
def FilteredChoiceSetInputValue.GetSelectedChoice (p : Platform) (input : AdaptiveChoiceSetInput)
    (Text : String) : Option AdaptiveChoiceInput :=
  input.Choices.foldl
    (fun selectedChoice choice =>
      if p.ToLowercase Text = p.ToLowercase choice.Title then some choice else selectedChoice)
    none

/-- The method `FilteredChoiceSetInputValue::CurrentValue`. -/
def FilteredChoiceSetInputValue.CurrentValue (p : Platform) (input : AdaptiveChoiceSetInput)
    (Text : String) : String :=
  match FilteredChoiceSetInputValue.GetSelectedChoice p input Text with
  | some selectedChoice => selectedChoice.Value
  | none => ""

/-- The method `FilteredChoiceSetInputValue::IsValueValid`. -/
def FilteredChoiceSetInputValue.IsValueValid (p : Platform) (input : AdaptiveChoiceSetInput)
    (Text : String) : Bool :=
  if Text.isEmpty then
    !input.IsRequired
  else
    (FilteredChoiceSetInputValue.GetSelectedChoice p input Text).isSome

/-! ## The input values and `Validate` -/

/-- The input values of `InputValue.cpp`, each with its input definition and the state of its
control that the file reads: the text of a box, the picker's nullable date or time span, the
check box's toggle value, the selector's index, the toggle values of the panel's children. -/
inductive InputValueVariant where
  | TextInputValue (input : AdaptiveTextInput) (Text : String)
  | PasswordInputValue (input : AdaptiveTextInput) (Password : String)
  | NumberInputValue (input : AdaptiveNumberInput) (Text : String)
  | DateInputValue (input : AdaptiveDateInput) (Date : Option Int)
  | TimeInputValue (input : AdaptiveTimeInput) (SelectedTime : Option Int)
  | ToggleInputValue (input : AdaptiveToggleInput) (checkedValue : Bool)
  | CompactChoiceSetInputValue (input : AdaptiveChoiceSetInput) (SelectedIndex : Int)
  | ExpandedChoiceSetInputValue (input : AdaptiveChoiceSetInput) (panelChildren : List Bool)
  | FilteredChoiceSetInputValue (input : AdaptiveChoiceSetInput) (Text : String)

/-- The property `IsRequired` of the input definition `m_adaptiveInputElement`. -/
def InputValueVariant.IsRequired : InputValueVariant → Bool
  | .TextInputValue input _ => input.IsRequired
  | .PasswordInputValue input _ => input.IsRequired
  | .NumberInputValue input _ => input.IsRequired
  | .DateInputValue input _ => input.IsRequired
  | .TimeInputValue input _ => input.IsRequired
  | .ToggleInputValue input _ => input.IsRequired
  | .CompactChoiceSetInputValue input _ => input.IsRequired
  | .ExpandedChoiceSetInputValue input _ => input.IsRequired
  | .FilteredChoiceSetInputValue input _ => input.IsRequired

/-- Modelled from the spec: the `CurrentValue` overrides of the text, password and number input
values are in `InputValue.h`, which is not among the sources; each is the current value accessor
of its control, the text of the box. The other cases are the methods of `InputValue.cpp`. -/
def InputValueVariant.CurrentValue (p : Platform) : InputValueVariant → Option String
  | .TextInputValue _ Text => some Text
  | .PasswordInputValue _ Password => some Password
  | .NumberInputValue _ Text => some Text
  | .DateInputValue _ Date => some (DateInputValue.CurrentValue p Date)
  | .TimeInputValue _ SelectedTime => TimeInputValue.CurrentValue SelectedTime
  | .ToggleInputValue input checkedValue => some (ToggleInputValue.CurrentValue input checkedValue)
  | .CompactChoiceSetInputValue input SelectedIndex =>
    CompactChoiceSetInputValue.CurrentValue input SelectedIndex
  | .ExpandedChoiceSetInputValue input panelChildren =>
    ExpandedChoiceSetInputValue.CurrentValue input panelChildren
  | .FilteredChoiceSetInputValue input Text =>
    some (FilteredChoiceSetInputValue.CurrentValue p input Text)

/-- Modelled from the spec: the class declarations are in `InputValue.h`, which is not among the
sources, so which classes override the virtual `IsValueValid` is taken from the overrides that
`InputValue.cpp` defines (text and password through `TextInputBase`, number, time, toggle,
filtered choice set) and from the spec's table, which gives "base rule only" for the date input
and for the compact and expanded choice sets. -/
def InputValueVariant.IsValueValid (p : Platform) (self : InputValueVariant) : Option Bool :=
  match self with
  | .TextInputValue input _ => TextInputBase.IsValueValid p input (self.CurrentValue p)
  | .PasswordInputValue input _ => TextInputBase.IsValueValid p input (self.CurrentValue p)
  | .NumberInputValue input _ => NumberInputValue.IsValueValid p input (self.CurrentValue p)
  | .DateInputValue input _ => InputValue.IsValueValid input.IsRequired (self.CurrentValue p)
  | .TimeInputValue input SelectedTime => TimeInputValue.IsValueValid p input SelectedTime
  | .ToggleInputValue input checkedValue => some (ToggleInputValue.IsValueValid input checkedValue)
  | .CompactChoiceSetInputValue input _ =>
    InputValue.IsValueValid input.IsRequired (self.CurrentValue p)
  | .ExpandedChoiceSetInputValue input _ =>
    InputValue.IsValueValid input.IsRequired (self.CurrentValue p)
  | .FilteredChoiceSetInputValue input Text =>
    some (FilteredChoiceSetInputValue.IsValueValid p input Text)

/-- A border thickness, `{Left, Top, Right, Bottom}`. -/
structure Thickness where
  Left : Nat
  Top : Nat
  Right : Nat
  Bottom : Nat
  deriving DecidableEq, Repr

/-- The visibility of an element. -/
inductive Visibility where
  | Visible
  | Collapsed
  deriving DecidableEq, Repr

/-- The state of the controls that validation writes. Elements are named by numbers. -/
structure ValidationControls where
  /-- The `BorderThickness` of `m_validationBorder`; `none` for a null border. -/
  m_validationBorder : Option Thickness
  /-- The element `m_validationError` and its `Visibility`; `none` for a null element. -/
  m_validationError : Option (Nat × Visibility)
  /-- The list `AutomationProperties::GetDescribedBy` of the input element. -/
  DescribedBy : List Nat
  /-- The property `AutomationProperties::IsDataValidForForm` of the input element. -/
  IsDataValidForForm : Bool
  deriving DecidableEq, Repr

/-- The method `InputValue::SetAccessibilityProperties`; `uiValidationError` is the element
`m_validationError`. -/
def InputValue.SetAccessibilityProperties (isInputValid : Bool) (uiValidationError : Nat)
    (c : ValidationControls) : ValidationControls :=
  let uiElementDescribers := c.DescribedBy
  let uiElementDescribers :=
    match uiElementDescribers.indexOf? uiValidationError with
    | none => if !isInputValid then uiElementDescribers ++ [uiValidationError] else uiElementDescribers
    | some index => if isInputValid then uiElementDescribers.eraseIdx index else uiElementDescribers
  { c with DescribedBy := uiElementDescribers, IsDataValidForForm := isInputValid }

/-- The method `InputValue::SetValidation`. -/
def InputValue.SetValidation (isInputValid : Bool) (c : ValidationControls) : ValidationControls :=
  let c :=
    match c.m_validationBorder with
    | some _ =>
      if isInputValid then { c with m_validationBorder := some ⟨0, 0, 0, 0⟩ }
      else { c with m_validationBorder := some ⟨1, 1, 1, 1⟩ }
    | none => c
  match c.m_validationError with
  | some (uiValidationError, _) =>
    let c :=
      if isInputValid then
        { c with m_validationError := some (uiValidationError, Visibility.Collapsed) }
      else
        { c with m_validationError := some (uiValidationError, Visibility.Visible) }
    InputValue.SetAccessibilityProperties isInputValid uiValidationError c
  | none => c

/-- The method `InputValue::Validate`: the returned boolean and the controls afterwards; `none`
when `IsValueValid` throws. -/
def InputValue.Validate (p : Platform) (self : InputValueVariant) (c : ValidationControls) :
    Option (Bool × ValidationControls) :=
  match self.IsValueValid p with
  | none => none
  | some isValid => some (isValid, InputValue.SetValidation isValid c)

/-! ## The image load tracker -/

/-- The load state of one image. -/
inductive ImageLoadStatus where
  | Pending
  | Loaded
  | Failed
  deriving DecidableEq, Repr

/-- The aggregate notifications of `IImageLoadTrackerListener`: `AllImagesLoaded` for the
aggregate status `AllLoaded`, `ImagesLoadingHadError` for `HadErrors`. -/
inductive ImageLoadNotification where
  | AllImagesLoaded
  | ImagesLoadingHadError
  deriving DecidableEq, Repr

/-- Modelled from the spec: `ImageLoadTracker.h` and its implementation are not among the sources.
The spec's `LoadTracker` is a mapping from image id to load state, here the ids `tracked` and
their `status`, with the count of pending loads, the terminal aggregate status once it is reached,
and the notifications delivered so far, each with the listener it went to. -/
structure ImageLoadTracker where
  tracked : List Nat
  status : Nat → ImageLoadStatus
  pendingCount : Nat
  terminal : Option ImageLoadNotification
  delivered : List (Nat × ImageLoadNotification)

/-- The tracker of a new render pass. -/
def ImageLoadTracker.empty : ImageLoadTracker :=
  { tracked := [], status := fun _ => .Pending, pendingCount := 0, terminal := none,
    delivered := [] }

/-- The number of images whose state is `Pending`. -/
def ImageLoadTracker.countPending (t : ImageLoadTracker) : Nat :=
  t.tracked.countP (fun image => decide (t.status image = .Pending))

/-- Modelled from the spec: `ImageLoadTracker::TrackImage` is not among the sources. A dispatched
load gets the state `Pending` and increments the pending count; an image that already has a state
is not registered again, so that the mapping keeps one state for an image. -/
def ImageLoadTracker.TrackImage (image : Nat) (t : ImageLoadTracker) : ImageLoadTracker :=
  if image ∈ t.tracked then t
  else
    { t with
      tracked := t.tracked ++ [image]
      status := Function.update t.status image .Pending
      pendingCount := t.pendingCount + 1 }

/-- The aggregate status: `AllLoaded` if every state is `Loaded`, else `HadErrors`. -/
def ImageLoadTracker.aggregate (t : ImageLoadTracker) : ImageLoadNotification :=
  if t.tracked.all (fun image => decide (t.status image = .Loaded)) = true then
    .AllImagesLoaded
  else
    .ImagesLoadingHadError

/-- Modelled from the spec: the completion of a load is not among the sources. The completion of a
pending image sets its state to `Loaded` or `Failed` and decrements the pending count, once; when
the count reaches zero for the first time the tracker takes its terminal aggregate status and
notifies each of the currently registered `listeners` once. The spec gives a state to a
dispatched load only and lets a load complete once: a completion reported for an image that is
not pending finds no state to change and leaves the tracker as it is. -/
def ImageLoadTracker.Complete (listeners : List Nat) (image : Nat) (success : Bool)
    (t : ImageLoadTracker) : ImageLoadTracker :=
  if image ∈ t.tracked ∧ t.status image = .Pending then
    let t :=
      { t with
        status := Function.update t.status image (if success then .Loaded else .Failed)
        pendingCount := t.pendingCount - 1 }
    if t.pendingCount = 0 ∧ t.terminal = none then
      { t with
        terminal := some t.aggregate
        delivered := t.delivered ++ listeners.map (fun listener => (listener, t.aggregate)) }
    else
      t
  else
    t

/-- Modelled from the spec: `ImageLoadTracker::MarkFailedLoadImage` is not among the sources; it
is the completion of the image with a failure. -/
def ImageLoadTracker.MarkFailedLoadImage (listeners : List Nat) (image : Nat)
    (t : ImageLoadTracker) : ImageLoadTracker :=
  t.Complete listeners image false

/-! ## The image methods of `XamlBuilder` -/

/-- The status of an asynchronous operation, `winrt::AsyncStatus`. -/
inductive AsyncStatus where
  | Canceled
  | Completed
  | Error
  | Started
  deriving DecidableEq, Repr

/-- The options `winrt::BitmapCreateOptions` that the file assigns. -/
inductive BitmapCreateOptions where
  | None
  | IgnoreImageCache
  deriving DecidableEq, Repr

/-- The calls that the image methods make on the image builder, on the resolver, on streams and on
the destination element, in the order they are made. Images, streams and elements are named by
numbers. -/
inductive ImageCall where
  | CreateImage (image : Nat)
  | AssignBitmapOptions (options : BitmapCreateOptions)
  | GetResourceStreamAsync (schemeName : String)
  | StoreAsync
  | SetUriSource (image : Nat)
  | GetInputStreamAsync
  | CopyAsync
  | Seek (stream : Nat)
  | SetImageSource (destination image : Nat)
  | SetAsyncSource (image stream : Nat) (isAutoSize : Bool)
  | VisibilityCollapsed (destination : Nat)
  | ImageOpened (destination : Nat)
  | SetAutoImageSize (destination : Nat) (isVisible : Bool)
  deriving DecidableEq, Repr

/-- The state of a `XamlBuilder` that the image methods use. `m_imageBuilder` is the one pointer to
an image builder that all images of the builder share, given by the image that
`m_imageBuilder->GetImage()` returns, the last one created through the pointer; `imagesCreated` is
the number of images created so far, which names the next one; the three vectors of operations
are given by their sizes, `m_listeners` by the list of its elements. `BuildImage` points
`m_imageBuilder` at a local of the block of its lines 67 to 76, whose lifetime is over when
`SetImageOnUIElement` and the completion handlers read through the pointer; the methods are
embedded as their text reads, on the object as it was left. -/
structure XamlBuilder where
  m_imageLoadTracker : ImageLoadTracker
  m_listeners : List Nat
  m_enableXamlImageHandling : Bool
  m_imageBuilder : Nat
  imagesCreated : Nat
  m_getStreamOperations : Nat
  m_copyStreamOperations : Nat
  m_writeAsyncOperations : Nat

/-- The method `XamlBuilder::SetAutoSize`, of the same shape for an image and for an ellipse: the
calls it makes. `parentElement` is `none` for a null parent. -/
def XamlBuilder.SetAutoSize (self : XamlBuilder) (destination : Nat)
    (parentElement : Option Nat) (_imageContainer : Nat) (isVisible imageFiresOpenEvent : Bool) :
    List ImageCall :=
  if parentElement.isSome && self.m_enableXamlImageHandling then
    if imageFiresOpenEvent then
      [.VisibilityCollapsed destination, .ImageOpened destination]
    else
      [.SetAutoImageSize destination isVisible]
  else
    []

/-- The method `XamlBuilder::PopulateImageFromUrlAsync`: the builder afterwards and the calls
made. -/
def XamlBuilder.PopulateImageFromUrlAsync (self : XamlBuilder) : XamlBuilder × List ImageCall :=
  let self :=
    { self with m_imageLoadTracker := self.m_imageLoadTracker.TrackImage self.m_imageBuilder }
  ({ self with m_getStreamOperations := self.m_getStreamOperations + 1 },
    [.AssignBitmapOptions .None, .GetInputStreamAsync])

/-- The method `XamlBuilder::SetImageOnUIElement`: the builder afterwards and the calls made.
`resolvers` is `none` for a null registry and otherwise lists the schemes for which `Get` returns
a resolver. The decoding of a `data` payload does not touch the builder and is left out. -/
def XamlBuilder.SetImageOnUIElement (self : XamlBuilder) (schemeName : String) (uiElement : Nat)
    (resolvers : Option (List String)) (isAutoSize : Bool) (parentElement : Option Nat)
    (imageContainer : Nat) (isVisible : Bool) : XamlBuilder × List ImageCall :=
  let self : XamlBuilder :=
    { self with m_imageBuilder := self.imagesCreated, imagesCreated := self.imagesCreated + 1 }
  let calls : List ImageCall := [ImageCall.CreateImage self.m_imageBuilder]
  let resolved : XamlBuilder × List ImageCall :=
    match resolvers with
    | some registered =>
      if schemeName ∈ registered then
        let tracked : XamlBuilder × List ImageCall :=
          if !self.m_enableXamlImageHandling && self.m_listeners.length != 0 then
            ({ self with
                m_imageLoadTracker := self.m_imageLoadTracker.TrackImage self.m_imageBuilder },
              calls ++ [ImageCall.AssignBitmapOptions BitmapCreateOptions.None])
          else
            (self, calls)
        (tracked.1, tracked.2 ++ [ImageCall.GetResourceStreamAsync schemeName])
      else
        (self, calls)
    | none => (self, calls)
  let self : XamlBuilder := resolved.1
  let calls : List ImageCall := resolved.2
  if schemeName = "data" then
    let self : XamlBuilder :=
      { self with m_imageLoadTracker := self.m_imageLoadTracker.TrackImage self.m_imageBuilder }
    ({ self with m_writeAsyncOperations := self.m_writeAsyncOperations + 1 },
      calls ++ [ImageCall.AssignBitmapOptions BitmapCreateOptions.IgnoreImageCache,
        ImageCall.StoreAsync])
  else if self.m_enableXamlImageHandling || self.m_listeners.length == 0 then
    (self,
      calls ++ [ImageCall.SetUriSource self.m_imageBuilder,
          ImageCall.SetImageSource uiElement self.m_imageBuilder]
        ++ (if isAutoSize then
              self.SetAutoSize uiElement parentElement imageContainer isVisible true
            else []))
  else
    let populate : XamlBuilder × List ImageCall := self.PopulateImageFromUrlAsync
    (populate.1, calls ++ populate.2)

/-- The `Completed` handler of the resolver's operation in `SetImageOnUIElement`. `GetResults` is
the operation's result, `none` for a null stream; `strongThis` is what `weakThis.get()` returns,
`none` once the builder is destroyed. The outcome is the builder afterwards and the calls made. -/
def XamlBuilder.getResourceStreamCompleted (uiElement : Nat) (isAutoSize : Bool)
    (status : AsyncStatus) (GetResults : Option Nat) (strongThis : Option XamlBuilder) :
    Option XamlBuilder × List ImageCall :=
  if status = .Completed then
    match strongThis with
    | some self =>
      match GetResults with
      | none =>
        (some { self with
            m_imageLoadTracker :=
              self.m_imageLoadTracker.MarkFailedLoadImage self.m_listeners self.m_imageBuilder },
          [])
      | some randomAccessStream =>
        (some self,
          [.SetImageSource uiElement self.m_imageBuilder,
            .SetAsyncSource self.m_imageBuilder randomAccessStream isAutoSize])
    | none => (none, [])
  else
    match strongThis with
    | some self =>
      (some { self with
          m_imageLoadTracker :=
            self.m_imageLoadTracker.MarkFailedLoadImage self.m_listeners self.m_imageBuilder },
        [])
    | none => (none, [])

/-- The handler given to `SetAsyncSource` in both `Completed` handlers of `SetImageOnUIElement`,
which sizes the element once the image is available. -/
def XamlBuilder.setAsyncSourceCompleted (uiElement : Nat) (parentElement : Option Nat)
    (imageContainer : Nat) (isVisible : Bool) (strongThis : Option XamlBuilder) :
    Option XamlBuilder × List ImageCall :=
  match strongThis with
  | some self =>
    (some self, self.SetAutoSize uiElement parentElement imageContainer isVisible false)
  | none => (none, [])

/-- The `Completed` handler of the data writer's `StoreAsync` in `SetImageOnUIElement`; the status
is not looked at. `DetachStream` is the detached stream as an in-memory stream, `none` when the
conversion `try_as` gives null. -/
def XamlBuilder.streamWriteCompleted (uiElement : Nat) (isAutoSize : Bool)
    (_status : AsyncStatus) (DetachStream : Option Nat) (strongThis : Option XamlBuilder) :
    Option XamlBuilder × List ImageCall :=
  match strongThis with
  | some self =>
    match DetachStream with
    | some stream =>
      (some self,
        [.Seek stream, .SetImageSource uiElement self.m_imageBuilder,
          .SetAsyncSource self.m_imageBuilder stream isAutoSize])
    | none => (some self, [])
  | none => (none, [])

/-- The `Completed` handler of `GetInputStreamAsync` in `PopulateImageFromUrlAsync`. -/
def XamlBuilder.getStreamCompleted (status : AsyncStatus) (strongThis : Option XamlBuilder) :
    Option XamlBuilder × List ImageCall :=
  if status = .Completed then
    match strongThis with
    | some self =>
      (some { self with m_copyStreamOperations := self.m_copyStreamOperations + 1 },
        [.CopyAsync])
    | none => (none, [])
  else
    (strongThis, [])

/-- The `Completed` handler of the stream copy in `PopulateImageFromUrlAsync`: it rewinds the
stream it captured and uses nothing of the builder. -/
def XamlBuilder.copyStreamCompleted (randomAccessStream : Nat) (_status : AsyncStatus)
    (strongThis : Option XamlBuilder) : Option XamlBuilder × List ImageCall :=
  (strongThis, [.Seek randomAccessStream])

/-! ## Utilities (`Util.cpp`) -/

/-- A colour, `winrt::Windows::UI::Color`: the bytes `A`, `R`, `G`, `B`. -/
structure Color where
  A : Nat
  R : Nat
  G : Nat
  B : Nat
  deriving DecidableEq, Repr

/-- The method `GenerateLHoverColor`. For a byte `c` the product `c * 0.25` is exact in `double`
and its conversion to `BYTE` truncates, which gives `c / 4`; the difference is stored in a
byte. -/
def GenerateLHoverColor (originalColor : Color) : Color :=
  { A := originalColor.A
    R := (originalColor.R - originalColor.R / 4 % 256) % 256
    G := (originalColor.G - originalColor.G / 4 % 256) % 256
    B := (originalColor.B - originalColor.B / 4 % 256) % 256 }

/-- The font sizes of a host config, `AdaptiveFontSizesConfig`, each a `uint32_t`. -/
structure AdaptiveFontSizesConfig where
  Small : Nat
  Default : Nat
  Medium : Nat
  Large : Nat
  ExtraLarge : Nat
  deriving DecidableEq, Repr

/-- The definition of a font type, `AdaptiveFontTypeDefinition`: its font sizes. -/
structure AdaptiveFontTypeDefinition where
  FontSizes : AdaptiveFontSizesConfig
  deriving DecidableEq, Repr

/-- The font types of a host config, `AdaptiveFontTypesDefinition`. -/
structure AdaptiveFontTypesDefinition where
  Default : AdaptiveFontTypeDefinition
  Monospace : AdaptiveFontTypeDefinition
  deriving DecidableEq, Repr

/-- The image sizes, `winrt::ImageSize`. -/
inductive ImageSize where
  | None
  | Auto
  | Stretch
  | Small
  | Medium
  | Large
  deriving DecidableEq, Repr

/-- The pixel sizes of a host config for the named image sizes, `AdaptiveImageSizesConfig`. -/
structure AdaptiveImageSizesConfig where
  Small : Nat
  Medium : Nat
  Large : Nat
  deriving DecidableEq, Repr

/-- The parts of the host config, `AdaptiveHostConfig`, that the embedded functions read:
`FontTypes`, the deprecated top-level `FontSizes`, `ImageBaseUrl`, the default image size
`Image().ImageSize()` and `ImageSizes`. -/
structure AdaptiveHostConfig where
  FontTypes : AdaptiveFontTypesDefinition
  FontSizes : AdaptiveFontSizesConfig
  ImageBaseUrl : String
  ImageSize : ImageSize
  ImageSizes : AdaptiveImageSizesConfig
  deriving DecidableEq, Repr

/-- A hexadecimal digit, of either case. -/
def isHexDigit (c : Char) : Bool :=
  decide ((48 ≤ c.toNat ∧ c.toNat ≤ 57) ∨ (97 ≤ c.toNat ∧ c.toNat ≤ 102) ∨
    (65 ≤ c.toNat ∧ c.toNat ≤ 70))

/-- The value of a hexadecimal digit, and 0 for another character. -/
def hexDigitValue (c : Char) : Nat :=
  if 48 ≤ c.toNat ∧ c.toNat ≤ 57 then c.toNat - 48
  else if 97 ≤ c.toNat ∧ c.toNat ≤ 102 then c.toNat - 87
  else if 65 ≤ c.toNat ∧ c.toNat ≤ 70 then c.toNat - 55
  else 0

/-- The test `regex_match(s, pattern)` for the pattern `[0-9a-f]{n}` with the flag `icase`, which
`GetColorFromString` builds for `n = 8` and `n = 6`: the whole string is `n` hexadecimal digits of
either case. -/
def regex_match_hex (n : Nat) (s : String) : Bool :=
  s.data.length == n && s.data.all isHexDigit

/-- The call `strtol(s, nullptr, 16)` on a string of hexadecimal digits. -/
def strtol16 (s : String) : Nat :=
  s.data.foldl (fun n c => 16 * n + hexDigitValue c) 0

/-- The call `substr(pos, std::string::npos)`: the string from `pos` to its end. -/
def substrFrom (s : String) (pos : Nat) : String :=
  ⟨s.data.drop pos⟩

/-- The function `GetColorFromString`. The conversions to `BYTE` reduce modulo 256. -/
def GetColorFromString (colorString : String) : Color :=
  let color : Color := ⟨0, 0, 0, 0⟩
  if colorString.length > 0 ∧ colorString.data.head? = some '#' then
    let hexColorString := substrFrom colorString 1
    let withAlpha : Color × String :=
      if regex_match_hex 8 hexColorString then
        let alphaString := substr hexColorString 0 2
        ({ color with A := strtol16 alphaString % 256 }, substrFrom hexColorString 2)
      else
        let alphaString := "FF"
        ({ color with A := strtol16 alphaString % 256 }, hexColorString)
    let color := withAlpha.1
    let hexColorString := withAlpha.2
    if regex_match_hex 6 hexColorString then
      let redString := substr hexColorString 0 2
      let greenString := substr hexColorString 2 2
      let blueString := substr hexColorString 4 2
      { color with
        R := strtol16 redString % 256
        G := strtol16 greenString % 256
        B := strtol16 blueString % 256 }
    else
      { color with A := 0 }
  else
    { color with A := 0 }

/-- A requirement of a card element, `AdaptiveRequirement`: `Name` and `Version`. -/
structure AdaptiveRequirement where
  Name : String
  Version : String
  deriving DecidableEq, Repr

/-- The loop of `MeetsRequirements` over the requirements left to visit, from the value of
`meetsRequirementsLocal` so far. `SemanticVersion` is the constructor of the class
`SemanticVersion` of the shared object model from a string, `none` when it throws; `less` is its
`operator<`; `Get` is `featureRegistration.Get`, which gives the empty string for a feature that
is not registered. -/
def MeetsRequirements.loop {V : Type} (SemanticVersion : String → Option V)
    (less : V → V → Bool) (Get : String → String) :
    List AdaptiveRequirement → Bool → Option Bool
  | [], meetsRequirementsLocal => some meetsRequirementsLocal
  | req :: requirements, meetsRequirementsLocal =>
    let registrationVersion := Get req.Name
    if registrationVersion.isEmpty then
      MeetsRequirements.loop SemanticVersion less Get requirements false
    else
      let requirementVersionString := req.Version
      if requirementVersionString ≠ "*" then
        match SemanticVersion requirementVersionString with
        | none => none
        | some requirementSemanticVersion =>
          match SemanticVersion registrationVersion with
          | none => none
          | some registrationSemanticVersion =>
            if less registrationSemanticVersion requirementSemanticVersion then
              MeetsRequirements.loop SemanticVersion less Get requirements false
            else
              MeetsRequirements.loop SemanticVersion less Get requirements
                meetsRequirementsLocal
      else
        MeetsRequirements.loop SemanticVersion less Get requirements meetsRequirementsLocal

/-- The function `MeetsRequirements`; `requirements` are `cardElement.Requirements()`. -/
def MeetsRequirements {V : Type} (SemanticVersion : String → Option V) (less : V → V → Bool)
    (requirements : List AdaptiveRequirement) (Get : String → String) : Option Bool :=
  MeetsRequirements.loop SemanticVersion less Get requirements true

/-! ## `GetUrlFromString` and `BuildImage` -/

/-- A URI, `winrt::Uri`: the parts that the image methods read. -/
structure Uri where
  SchemeName : String
  Path : String
  deriving DecidableEq, Repr

/-- The two constructors of `winrt::Uri` that `GetUrlFromString` calls, from a string
(`CreateUri`) and from a base with a relative string (`CreateWithRelativeUri`). A constructor of
the C++/WinRT projection gives an object or throws `winrt::hresult_error`, here `none`, as it does
for a string that is not an absolute URI; it never gives a null reference. -/
structure UriConstructors where
  CreateUri : String → Option Uri
  CreateWithRelativeUri : String → String → Option Uri

/-- The function `GetUrlFromString`. A reference of type `winrt::Uri` is an `Option Uri` with
`none` for null, and the test `if (const auto uri = winrt::Uri{...})` asks whether the reference
is not null. The outer `none` of the result is a throw of a constructor, which the function does
not catch, and `some none` the returned `nullptr`. -/
def GetUrlFromString (u : UriConstructors) (hostConfig : AdaptiveHostConfig)
    (urlString : String) : Option (Option Uri) :=
  match u.CreateUri urlString with
  | none => none
  | some constructed =>
    let uriFromAbsoluteUri : Option Uri := some constructed
    if uriFromAbsoluteUri.isSome then
      some uriFromAbsoluteUri
    else
      let imageBaseUrl := hostConfig.ImageBaseUrl
      match u.CreateWithRelativeUri imageBaseUrl urlString with
      | none => none
      | some constructed =>
        let uriFromRelativeUri : Option Uri := some constructed
        if uriFromRelativeUri.isSome then
          some uriFromRelativeUri
        else
          some none

/-- The image styles, `winrt::ImageStyle`. -/
inductive ImageStyle where
  | Default
  | Person
  deriving DecidableEq, Repr

/-- The stretch modes, `winrt::Stretch`. -/
inductive Stretch where
  | None
  | Fill
  | Uniform
  | UniformToFill
  deriving DecidableEq, Repr

/-- The warning code that `BuildImage` adds, of `winrt::WarningStatusCode`. -/
inductive WarningStatusCode where
  | AssetLoadFailed
  deriving DecidableEq, Repr

/-- The image element, `AdaptiveImage`: the properties that the embedded part of `BuildImage`
reads. `PixelWidth` and `PixelHeight` are 0 when not given. -/
structure AdaptiveImage where
  Url : String
  PixelWidth : Nat
  PixelHeight : Nat
  Size : ImageSize
  Style : ImageStyle
  BackgroundColor : String
  IsVisible : Bool
  deriving DecidableEq, Repr

/-- The framework element that `BuildImage` builds: which object it is (the image or ellipse, or
the border or grid around it), the stretch set on the image or ellipse, the background colour, and
the size limits. -/
structure FrameworkElement where
  element : Nat
  Stretch : Option Stretch
  Background : Option Color
  Width : Option Nat
  Height : Option Nat
  MaxWidth : Option Nat
  MaxHeight : Option Nat
  deriving DecidableEq, Repr

/-- What a call of `BuildImage` leaves: the element built, `none` for `nullptr`; the warnings added
to the render context; the builder afterwards; the calls made by `SetImageOnUIElement`. -/
structure BuildImageOutcome where
  frameworkElement : Option FrameworkElement
  warnings : List (WarningStatusCode × String)
  xamlBuilder : XamlBuilder
  calls : List ImageCall

/-- The method `XamlBuilder::BuildImage`, up to the sizes of the element; `none` when
`GetUrlFromString` throws. `resolvers` and `parentElement` are those of the render context and
render arguments; `uiElement` names the new image or ellipse and `container` the new border or
grid. The image builder chosen by `IsSvgImage`, the local whose address goes to `m_imageBuilder`,
is the object on which `SetImageOnUIElement` creates the image. The alignment, the style, the name
and the select action, which are set through helpers outside these sources after the load is
started, are left out. -/
def XamlBuilder.BuildImage (self : XamlBuilder) (u : UriConstructors)
    (adaptiveImage : AdaptiveImage) (hostConfig : AdaptiveHostConfig)
    (resolvers : Option (List String)) (parentElement : Option Nat) (uiElement container : Nat) :
    Option BuildImageOutcome :=
  match GetUrlFromString u hostConfig adaptiveImage.Url with
  | none => none
  | some none =>
    some { frameworkElement := none
           warnings := [(WarningStatusCode.AssetLoadFailed, "Image not found")]
           xamlBuilder := self
           calls := [] }
  | some (some imageUrl) =>
    let pixelWidth := adaptiveImage.PixelWidth
    let pixelHeight := adaptiveImage.PixelHeight
    let hasExplicitMeasurements : Bool := pixelWidth != 0 || pixelHeight != 0
    let isAspectRatioNeeded : Bool := pixelWidth != 0 && pixelHeight != 0
    let size : ImageSize := ImageSize.None
    let size : ImageSize := if !hasExplicitMeasurements then adaptiveImage.Size else size
    let size : ImageSize :=
      if size = ImageSize.None ∧ hasExplicitMeasurements = false then hostConfig.ImageSize
      else size
    let imageStyle := adaptiveImage.Style
    let backgroundColor := adaptiveImage.BackgroundColor
    let isVisible := adaptiveImage.IsVisible
    let isPerson : Bool := decide (imageStyle = ImageStyle.Person)
    let background : Option Color :=
      if !backgroundColor.isEmpty then some (GetColorFromString backgroundColor) else none
    let frameworkElement : Nat := if !backgroundColor.isEmpty then container else uiElement
    let stretch : Option Stretch :=
      if isPerson then
        let imageStretch := if isAspectRatioNeeded then Stretch.Fill else Stretch.UniformToFill
        if size = ImageSize.None ∨ size = ImageSize.Stretch ∨ size = ImageSize.Auto ∨
            hasExplicitMeasurements = true then
          some imageStretch
        else
          some Stretch.UniformToFill
      else if isAspectRatioNeeded then some Stretch.Fill
      else none
    let imageContainer : Nat := if isPerson then uiElement else frameworkElement
    let started := self.SetImageOnUIElement imageUrl.SchemeName uiElement resolvers
      (decide (size = ImageSize.Auto)) parentElement imageContainer isVisible
    let sized : FrameworkElement :=
      if hasExplicitMeasurements then
        { element := frameworkElement, Stretch := stretch, Background := background
          Width := if pixelWidth != 0 && isPerson then some pixelWidth else none
          Height := if pixelHeight != 0 && isPerson then some pixelHeight else none
          MaxWidth := if pixelWidth != 0 && !isPerson then some pixelWidth else none
          MaxHeight := if pixelHeight != 0 && !isPerson then some pixelHeight else none }
      else
        let imageSize : Option Nat :=
          match size with
          | .Small => some hostConfig.ImageSizes.Small
          | .Medium => some hostConfig.ImageSizes.Medium
          | .Large => some hostConfig.ImageSizes.Large
          | _ => none
        { element := frameworkElement, Stretch := stretch, Background := background
          Width := none
          Height := none
          MaxWidth := imageSize
          MaxHeight := if isPerson then none else imageSize }
    some { frameworkElement := some sized
           warnings := []
           xamlBuilder := started.1
           calls := started.2 }

/-! ## A concrete platform

The cases of the library services that the examples below evaluate. -/

/-- The value of `std::stod` on a string that starts with a decimal digit: the number of the
leading run of digits, the text behind the run not being looked at, as `std::stod` converts the
longest numeric start of its argument and ignores what follows. A run followed by `.`, `e`, `E`,
`x` or `X` (a fraction, an exponent, a hexadecimal form) and a string that starts otherwise are
left out. -/
def digitsStod (s : String) : Option ℚ :=
  let digits := s.data.takeWhile Char.isDigit
  let rest := s.data.dropWhile Char.isDigit
  if digits ≠ [] ∧ rest.head?.all (fun c => !(['.', 'e', 'E', 'x', 'X'].contains c)) = true then
    some ((digits.foldl (fun n c => 10 * n + (c.toNat - 48)) 0 : Nat) : ℚ)
  else
    none

/-- The pattern `^[0-9]{3}$` as a whole-subject test. Every other pattern is taken as one the
`std::regex` constructor rejects, as it does the unbalanced `(`. -/
def threeDigitsRegex (pattern : String) : Option (String → Bool) :=
  if pattern = "^[0-9]{3}$" then
    some (fun subject => subject.data.length == 3 && subject.data.all Char.isDigit)
  else
    none

/-- Lower-casing of the ASCII letters. -/
def asciiToLowercase (s : String) : String :=
  ⟨s.data.map Char.toLower⟩

/-- The clock time of a string `HH:MM` of four decimal digits with `HH < 24` and `MM < 60`. -/
def simpleTime (s : String) : Option (Nat × Nat) :=
  match s.data with
  | [h1, h0, ':', m1, m0] =>
    if h1.isDigit && h0.isDigit && m1.isDigit && m0.isDigit then
      let hours := (h1.toNat - 48) * 10 + (h0.toNat - 48)
      let minutes := (m1.toNat - 48) * 10 + (m0.toNat - 48)
      if hours < 24 ∧ minutes < 60 then some (hours, minutes) else none
    else
      none
  | _ => none

/-- The concrete platform of the examples. -/
def examplePlatform : Platform where
  stod := digitsStod
  regex := threeDigitsRegex
  ToLowercase := asciiToLowercase
  TryParseSimpleTime := simpleTime
  Format := fun _ => "2000-01-01"

/-- A version that is one decimal number, for the examples: the number of a string of decimal
digits, and `none`, the throw of the constructor, for another string. -/
def numberVersion (s : String) : Option Nat :=
  if s.data ≠ [] ∧ s.data.all Char.isDigit = true then
    some (s.data.foldl (fun n c => 10 * n + (c.toNat - 48)) 0)
  else
    none

/-- The URI of a string `scheme:path` with a non-empty scheme, for the examples; `none` for a
string without such a scheme. -/
def schemeAndPath (s : String) : Option Uri :=
  let scheme := s.data.takeWhile (fun c => c != ':')
  if scheme ≠ [] ∧ scheme.length < s.data.length then
    some ⟨⟨scheme⟩, ⟨s.data.drop (scheme.length + 1)⟩⟩
  else
    none

/-- Constructors for the examples: the URI of a string with a scheme, and a throw for a string
without one; the relative constructor appends the string to the base. -/
def exampleUri : UriConstructors where
  CreateUri := schemeAndPath
  CreateWithRelativeUri := fun base s => schemeAndPath (base ++ s)

/-- A host config for the examples: no font size set, no image base URL, the default image size
`Auto`. -/
def exampleHostConfig : AdaptiveHostConfig where
  FontTypes :=
    { Default := ⟨⟨4294967295, 4294967295, 4294967295, 4294967295, 4294967295⟩⟩
      Monospace := ⟨⟨4294967295, 4294967295, 4294967295, 4294967295, 4294967295⟩⟩ }
  FontSizes := ⟨4294967295, 4294967295, 4294967295, 4294967295, 4294967295⟩
  ImageBaseUrl := ""
  ImageSize := ImageSize.Auto
  ImageSizes := ⟨40, 80, 160⟩

/-! ## Reference definitions -/

/-- The reference for the multi-select value: the values of the choices whose child is switched
on, in the order of the list (children and choices are paired by position). -/
def selectedValues (panelChildren : List Bool) (choices : List AdaptiveChoiceInput) :
    List String :=
  ((panelChildren.zip choices).filter (fun x => x.1)).map (fun x => x.2.Value)

/-- The calls that start a load of the image: the resolver's operation, the write of decoded
data, the built-in loader, the explicit fetch. -/
def ImageCall.isLoadStart : ImageCall → Bool
  | .GetResourceStreamAsync _ => true
  | .StoreAsync => true
  | .SetUriSource _ => true
  | .GetInputStreamAsync => true
  | _ => false

/-- A builder of a new render pass with the given listeners. -/
def XamlBuilder.new (listeners : List Nat) (enableXamlImageHandling : Bool) : XamlBuilder :=
  { m_imageLoadTracker := ImageLoadTracker.empty, m_listeners := listeners,
    m_enableXamlImageHandling := enableXamlImageHandling, m_imageBuilder := 0,
    imagesCreated := 0, m_getStreamOperations := 0, m_copyStreamOperations := 0,
    m_writeAsyncOperations := 0 }

/-- The invariant of the tracker: an image has one state, and the pending count is the number of
images whose state is `Pending`. -/
def ImageLoadTracker.Invariant (t : ImageLoadTracker) : Prop :=
  t.tracked.Nodup ∧ t.pendingCount = t.countPending

/-- The dispatch of the loads of the given images, in order. -/
def ImageLoadTracker.dispatchAll (images : List Nat) (t : ImageLoadTracker) : ImageLoadTracker :=
  images.foldl (fun t image => t.TrackImage image) t

/-- The completions of loads in the given order, each an image and whether its load succeeded. -/
def ImageLoadTracker.completeAll (listeners : List Nat) (completions : List (Nat × Bool))
    (t : ImageLoadTracker) : ImageLoadTracker :=
  completions.foldl (fun t c => t.Complete listeners c.1 c.2) t

/-- The reference for a zero-padded two-digit decimal field: the tens digit and the units
digit. -/
def twoDigits (n : Nat) : String :=
  ⟨[Char.ofNat (48 + n / 10), Char.ofNat (48 + n % 10)]⟩

/-- The reference for the byte that two hexadecimal digits write. -/
def hexByte (high low : Char) : Nat :=
  16 * hexDigitValue high + hexDigitValue low

/-- The reference for a requirement that is met: the registration holds a non-empty version for
its name, and its version is `*` or both versions are constructed and the registered one is not
less than the required one. -/
def requirementMet {V : Type} (SemanticVersion : String → Option V) (less : V → V → Bool)
    (Get : String → String) (req : AdaptiveRequirement) : Prop :=
  Get req.Name ≠ "" ∧
    (req.Version = "*" ∨
      ∃ required registered, SemanticVersion req.Version = some required ∧
        SemanticVersion (Get req.Name) = some registered ∧ less registered required = false)

/-! ## Auxiliary facts -/

theorem isEmpty_eq_false_of_ne {s : String} (h : s ≠ "") : s.isEmpty = false := by
  cases hs : s.isEmpty with
  | false => rfl
  | true => exact absurd ((String.isEmpty_iff s).mp hs) h

theorem format02llu_length (n : Nat) (h : n < 100) : (format02llu n).length = 2 := by
  revert n
  decide

/-- A selected time of `m` whole minutes within a day has a current value, and it is not empty. -/
theorem TimeInputValue_CurrentValue_minutes (m : Nat) (hm : m < 1440) :
    ∃ s, TimeInputValue.CurrentValue (some ((m : Int) * 600000000)) = some s ∧
      s.isEmpty = false := by
  have h1 : ((m : Int) * 600000000).tdiv 10000000 = (m : Int) * 60 := by
    rw [Int.tdiv_eq_ediv (by positivity) (by norm_num)]; omega
  have h2 : ((m : Int) * 60).tdiv 60 = m := by
    rw [Int.tdiv_eq_ediv (by positivity) (by norm_num)]; omega
  have h3 : ((m : Int) % 18446744073709551616).toNat = m := by omega
  have hlen : (format02llu (m / 60) ++ ":" ++ format02llu (m - m / 60 * 60)).length = 5 := by
    rw [String.length_append, String.length_append, format02llu_length _ (by omega),
      format02llu_length _ (by omega)]
    rfl
  refine ⟨format02llu (m / 60) ++ ":" ++ format02llu (m - m / 60 * 60), ?_, ?_⟩
  · simp only [TimeInputValue.CurrentValue, h1, h2, h3, sprintf_s, hlen]
    rfl
  · apply isEmpty_eq_false_of_ne
    intro h
    rw [h] at hlen
    exact absurd hlen (by decide)

/-- The base rule holds for a selected time of `m` whole minutes within a day. -/
theorem TimeInputValue_base_rule_minutes (isRequired : Bool) (m : Nat) (hm : m < 1440) :
    InputValue.IsValueValid isRequired (TimeInputValue.CurrentValue (some ((m : Int) * 600000000)))
      = some true := by
  obtain ⟨s, hs, hne⟩ := TimeInputValue_CurrentValue_minutes m hm
  cases isRequired <;> simp [InputValue.IsValueValid, hs, hne]

/-- The loop of `GetSelectedChoice` keeps the last element that passes the test. -/
theorem foldl_keep_last {α : Type} (f : α → Prop) [DecidablePred f] (l : List α)
    (init : Option α) :
    l.foldl (fun sel c => if f c then some c else sel) init
      = (l.reverse.find? (fun c => decide (f c))).or init := by
  induction l generalizing init with
  | nil => simp
  | cons a l ih =>
    rw [List.foldl_cons, ih, List.reverse_cons, List.find?_append]
    by_cases h : f a
    · cases (List.find? (fun c => decide (f c)) l.reverse) <;> simp [h]
    · cases (List.find? (fun c => decide (f c)) l.reverse) <;> simp [h]

/-- The selected choice is the last choice of the list whose lower-cased title is the lower-cased
text. -/
theorem GetSelectedChoice_eq_find (p : Platform) (input : AdaptiveChoiceSetInput) (Text : String) :
    FilteredChoiceSetInputValue.GetSelectedChoice p input Text
      = input.Choices.reverse.find?
          (fun choice => decide (p.ToLowercase Text = p.ToLowercase choice.Title)) := by
  unfold FilteredChoiceSetInputValue.GetSelectedChoice
  rw [foldl_keep_last]
  simp

/-- The loop of `String.intercalate`: the accumulator followed by each further element behind a
separator. -/
theorem intercalate_go_data (sep : String) (l : List String) (acc : String) :
    (String.intercalate.go acc sep l).data
      = acc.data ++ (l.map (fun v => sep.data ++ v.data)).flatten := by
  induction l generalizing acc with
  | nil => simp [String.intercalate.go]
  | cons a l ih => simp [String.intercalate.go, ih, List.append_assoc]

/-- Elements each followed by a comma are, for a non-empty list, the comma-joined list followed by
one comma. -/
theorem flatten_comma_data (l : List String) (hl : l ≠ []) :
    (l.map (fun v => v.data ++ [','])).flatten = (String.intercalate "," l).data ++ [','] := by
  cases l with
  | nil => exact absurd rfl hl
  | cons a l =>
    simp only [String.intercalate, intercalate_go_data, List.map_cons, List.flatten_cons]
    clear hl
    induction l generalizing a with
    | nil => simp
    | cons b l ih =>
      have := ih b
      simp only [List.map_cons, List.flatten_cons, List.append_assoc] at this ⊢
      rw [this]

/-- Within the choice list and below `uint32_t(-1)`, `GetChoiceValue` is the value of the choice
at the index. -/
theorem GetChoiceValue_of_lt (input : AdaptiveChoiceSetInput) (index : Nat)
    (hlt : index < input.Choices.length) (hsize : input.Choices.length ≤ 4294967295) :
    GetChoiceValue input index = some (input.Choices[index]).Value := by
  have hne : index ≠ 4294967295 := by omega
  simp [GetChoiceValue, hne, List.getElem?_eq_getElem hlt]

/-- The multi-select loop appends, to the text gathered so far, the value of every switched-on
choice followed by a comma. -/
theorem gatherMultiSelect_data (input : AdaptiveChoiceSetInput)
    (hsize : input.Choices.length ≤ 4294967295) :
    ∀ (panelChildren : List Bool) (index : Nat) (acc : String),
      index + panelChildren.length ≤ input.Choices.length →
      ExpandedChoiceSetInputValue.gatherMultiSelect input panelChildren index acc
        = some ⟨acc.data ++ ((selectedValues panelChildren (input.Choices.drop index)).map
            (fun v => v.data ++ [','])).flatten⟩ := by
  intro panelChildren
  induction panelChildren with
  | nil =>
    intro index acc _
    simp [ExpandedChoiceSetInputValue.gatherMultiSelect, selectedValues]
  | cons element rest ih =>
    intro index acc hlen
    simp only [List.length_cons] at hlen
    have hlt : index < input.Choices.length := by omega
    have hmod : (index + 1) % 4294967296 = index + 1 := Nat.mod_eq_of_lt (by omega)
    have hdrop : input.Choices.drop index
        = input.Choices[index] :: input.Choices.drop (index + 1) :=
      List.drop_eq_getElem_cons hlt
    cases element with
    | false =>
      simp only [ExpandedChoiceSetInputValue.gatherMultiSelect, hmod, Bool.false_eq_true,
        if_false]
      rw [ih (index + 1) acc (by omega), hdrop]
      simp only [selectedValues, List.zip_cons_cons, List.filter_cons, Bool.false_eq_true,
        if_false]
    | true =>
      simp only [ExpandedChoiceSetInputValue.gatherMultiSelect, hmod, if_true,
        GetChoiceValue_of_lt input index hlt hsize]
      rw [ih (index + 1) _ (by omega), hdrop]
      simp only [selectedValues, List.zip_cons_cons, List.filter_cons, if_true, List.map_cons,
        List.flatten_cons, String.data_append, List.append_assoc]

/-- Dropping the last character of a text that ends in a comma: `substr(0, size - 1)`. -/
theorem substr_drop_last (x : String) :
    substr ⟨x.data ++ [',']⟩ 0 ((⟨x.data ++ [',']⟩ : String).length - 1) = x := by
  cases x with
  | mk l =>
    simp only [substr, String.length, List.drop_zero, List.length_append, List.length_singleton,
      Nat.add_sub_cancel, List.take_left]

/-- The single-select loop returns `uint32_t(-1)` when no child is switched on. -/
theorem findSelectedIndex_all_off (panelChildren : List Bool)
    (hoff : ∀ element ∈ panelChildren, element = false) (index : Nat) :
    ExpandedChoiceSetInputValue.findSelectedIndex panelChildren index = 4294967295 := by
  induction panelChildren generalizing index with
  | nil => rfl
  | cons element rest ih =>
    have h1 : element = false := hoff element (List.mem_cons_self _ _)
    subst h1
    simp only [ExpandedChoiceSetInputValue.findSelectedIndex, Bool.false_eq_true, if_false]
    exact ih (fun e he => hoff e (List.mem_cons_of_mem _ he)) _

/-- The single-select loop returns the position of the first switched-on child. -/
theorem findSelectedIndex_first_on (k : Nat) (rest : List Bool) (index : Nat)
    (hk : index + k < 4294967296) :
    ExpandedChoiceSetInputValue.findSelectedIndex (List.replicate k false ++ true :: rest) index
      = index + k := by
  induction k generalizing index with
  | zero => simp [ExpandedChoiceSetInputValue.findSelectedIndex]
  | succ k ih =>
    have hmod : (index + 1) % 4294967296 = index + 1 := Nat.mod_eq_of_lt (by omega)
    simp only [List.replicate_succ, List.cons_append,
      ExpandedChoiceSetInputValue.findSelectedIndex, Bool.false_eq_true, if_false, hmod]
    have h := ih (index + 1) (by omega)
    rw [show (List.replicate k false).append (true :: rest)
      = List.replicate k false ++ true :: rest from rfl, h]
    omega

/-- Changing the state of an image outside a list does not change the pending count of the
list. -/
theorem countP_update_not_mem (f : Nat → ImageLoadStatus) (image : Nat) (v : ImageLoadStatus)
    (l : List Nat) (h : image ∉ l) :
    l.countP (fun i => decide (Function.update f image v i = .Pending))
      = l.countP (fun i => decide (f i = .Pending)) := by
  apply List.countP_congr
  intro x hx
  have hne : x ≠ image := fun e => h (e ▸ hx)
  simp [Function.update_noteq hne]

/-- Settling a pending image of a list without repetition lowers the pending count by one. -/
theorem countP_update_pending (f : Nat → ImageLoadStatus) (image : Nat) (v : ImageLoadStatus)
    (hv : v ≠ .Pending) (l : List Nat) (hl : l.Nodup) (hmem : image ∈ l)
    (hf : f image = .Pending) :
    l.countP (fun i => decide (Function.update f image v i = .Pending)) + 1
      = l.countP (fun i => decide (f i = .Pending)) := by
  induction l with
  | nil => cases hmem
  | cons a l ih =>
    obtain ⟨ha, hl⟩ := List.nodup_cons.mp hl
    by_cases e : image = a
    · subst e
      rw [List.countP_cons, List.countP_cons, countP_update_not_mem f image v l ha]
      simp [hv, hf]
    · have hmem' : image ∈ l := by
        rcases List.mem_cons.mp hmem with h | h
        · exact absurd h e
        · exact h
      have hne : a ≠ image := fun h => e h.symm
      rw [List.countP_cons, List.countP_cons, Function.update_noteq hne]
      have := ih hl hmem'
      omega

theorem Invariant_empty : ImageLoadTracker.empty.Invariant := by
  simp [ImageLoadTracker.Invariant, ImageLoadTracker.empty, ImageLoadTracker.countPending]

theorem Invariant_TrackImage (image : Nat) (t : ImageLoadTracker) (h : t.Invariant) :
    (t.TrackImage image).Invariant := by
  unfold ImageLoadTracker.TrackImage
  by_cases hm : image ∈ t.tracked
  · simpa [hm] using h
  · obtain ⟨hn, hc⟩ := h
    simp only [hm, if_false, ImageLoadTracker.Invariant, ImageLoadTracker.countPending]
    refine ⟨?_, ?_⟩
    · exact List.Nodup.append hn (List.nodup_singleton _) (by simpa using hm)
    · rw [List.countP_append, countP_update_not_mem _ _ _ _ hm]
      simp [hc, ImageLoadTracker.countPending]

/-- The completion of a pending image: its state is set, the pending count drops by one, the
invariant is kept, and the listeners are notified exactly when this was the last pending image and
no terminal status had been reached. -/
theorem Complete_pending (listeners : List Nat) (image : Nat) (success : Bool)
    (t : ImageLoadTracker) (hinv : t.Invariant) (hm : image ∈ t.tracked)
    (hp : t.status image = .Pending) (after : ImageLoadTracker)
    (hafter : after = t.Complete listeners image success) :
    after.tracked = t.tracked ∧
    after.status = Function.update t.status image (if success then .Loaded else .Failed) ∧
    after.countPending + 1 = t.countPending ∧
    after.Invariant ∧
    ((t.countPending = 1 ∧ t.terminal = none) →
      after.terminal = some after.aggregate ∧
      after.delivered
        = t.delivered ++ listeners.map (fun listener => (listener, after.aggregate))) ∧
    (¬ (t.countPending = 1 ∧ t.terminal = none) →
      after.terminal = t.terminal ∧ after.delivered = t.delivered) := by
  obtain ⟨hn, hc⟩ := hinv
  have hv : (if success = true then ImageLoadStatus.Loaded else ImageLoadStatus.Failed)
      ≠ .Pending := by
    cases success <;> simp
  have hcount := countP_update_pending t.status image _ hv t.tracked hn hm hp
  by_cases hfire : t.pendingCount - 1 = 0 ∧ t.terminal = none
  · have hval : after = { t with
          status := Function.update t.status image (if success then .Loaded else .Failed)
          pendingCount := t.pendingCount - 1
          terminal := some (ImageLoadTracker.aggregate { t with
            status := Function.update t.status image (if success then .Loaded else .Failed)
            pendingCount := t.pendingCount - 1 })
          delivered := t.delivered ++ listeners.map (fun listener =>
            (listener, ImageLoadTracker.aggregate { t with
              status := Function.update t.status image (if success then .Loaded else .Failed)
              pendingCount := t.pendingCount - 1 })) } := by
      rw [hafter]
      simp only [ImageLoadTracker.Complete, hm, hp, and_self, if_true, hfire]
    subst hval
    refine ⟨rfl, rfl, hcount, ⟨hn, ?_⟩, fun _ => ⟨rfl, rfl⟩, ?_⟩
    · show t.pendingCount - 1 = _
      simp only [ImageLoadTracker.countPending] at hc ⊢
      omega
    · intro hno
      exfalso
      apply hno
      simp only [ImageLoadTracker.countPending] at hc ⊢
      exact ⟨by omega, hfire.2⟩
  · have hval : after = { t with
          status := Function.update t.status image (if success then .Loaded else .Failed)
          pendingCount := t.pendingCount - 1 } := by
      rw [hafter]
      simp only [ImageLoadTracker.Complete, hm, hp, and_self, if_true, hfire, if_false]
    subst hval
    refine ⟨rfl, rfl, hcount, ⟨hn, ?_⟩, ?_, fun _ => ⟨rfl, rfl⟩⟩
    · show t.pendingCount - 1 = _
      simp only [ImageLoadTracker.countPending] at hc ⊢
      omega
    · intro hyes
      exfalso
      apply hfire
      simp only [ImageLoadTracker.countPending] at hc hyes
      exact ⟨by omega, hyes.2⟩

theorem Invariant_Complete (listeners : List Nat) (image : Nat) (success : Bool)
    (t : ImageLoadTracker) (h : t.Invariant) : (t.Complete listeners image success).Invariant := by
  by_cases hpend : image ∈ t.tracked ∧ t.status image = .Pending
  · exact (Complete_pending listeners image success t h hpend.1 hpend.2 _ rfl).2.2.2.1
  · simpa [ImageLoadTracker.Complete, hpend] using h

theorem Invariant_dispatchAll (images : List Nat) (t : ImageLoadTracker) (h : t.Invariant) :
    (t.dispatchAll images).Invariant := by
  induction images generalizing t with
  | nil => exact h
  | cons image images ih => exact ih _ (Invariant_TrackImage image t h)

theorem Invariant_completeAll (listeners : List Nat) (completions : List (Nat × Bool))
    (t : ImageLoadTracker) (h : t.Invariant) : (t.completeAll listeners completions).Invariant := by
  induction completions generalizing t with
  | nil => exact h
  | cons c completions ih => exact ih _ (Invariant_Complete listeners c.1 c.2 t h)

/-- Completions of distinct images that are exactly the pending ones: nothing is delivered before
the last completion, and the last one delivers one notification, the aggregate of the final
states, to each listener. -/
theorem completeAll_pending (listeners : List Nat) :
    ∀ (rest : List (Nat × Bool)) (c : Nat × Bool) (t : ImageLoadTracker),
      t.Invariant → t.terminal = none → t.delivered = [] →
      ((c :: rest).map Prod.fst).Nodup →
      (∀ x ∈ c :: rest, x.1 ∈ t.tracked ∧ t.status x.1 = .Pending) →
      t.countPending = (c :: rest).length →
      (∀ k, k < (c :: rest).length →
        (t.completeAll listeners ((c :: rest).take k)).delivered = []) ∧
      (t.completeAll listeners (c :: rest)).delivered
        = listeners.map
            (fun listener => (listener, (t.completeAll listeners (c :: rest)).aggregate)) ∧
      (t.completeAll listeners (c :: rest)).tracked = t.tracked ∧
      (t.completeAll listeners (c :: rest)).countPending = 0 ∧
      (∀ x ∈ c :: rest,
        (t.completeAll listeners (c :: rest)).status x.1
          = if x.2 then ImageLoadStatus.Loaded else ImageLoadStatus.Failed) ∧
      (∀ i, i ∉ (c :: rest).map Prod.fst →
        (t.completeAll listeners (c :: rest)).status i = t.status i) := by
  intro rest
  induction rest with
  | nil =>
    intro c t hinv hterm hdel _ hpend hcount
    obtain ⟨hm, hp⟩ := hpend c (List.mem_singleton_self c)
    obtain ⟨h1, h2, _, _, h5, _⟩ :=
      Complete_pending listeners c.1 c.2 t hinv hm hp _ rfl
    obtain ⟨_, h5b⟩ := h5 ⟨by simpa using hcount, hterm⟩
    obtain ⟨_, _, h3, _⟩ := Complete_pending listeners c.1 c.2 t hinv hm hp _ rfl
    have hrun : t.completeAll listeners [c] = t.Complete listeners c.1 c.2 := rfl
    refine ⟨?_, ?_, ?_, ?_, ?_, ?_⟩
    · intro k hk
      have hk0 : k = 0 := by simpa using hk
      subst hk0
      exact hdel
    · rw [hrun, h5b, hdel, List.nil_append]
    · rw [hrun, h1]
    · rw [hrun]
      simp only [List.length_singleton] at hcount
      omega
    · intro x hx
      have hxc : x = c := by simpa using hx
      subst hxc
      rw [hrun, h2, Function.update_same]
    · intro i hi
      have hne : i ≠ c.1 := by simpa using hi
      rw [hrun, h2, Function.update_noteq hne]
  | cons c' rest ih =>
    intro c t hinv hterm hdel hnodup hpend hcount
    obtain ⟨hm, hp⟩ := hpend c (List.mem_cons_self _ _)
    obtain ⟨h1, h2, h3, h4, _, h6⟩ :=
      Complete_pending listeners c.1 c.2 t hinv hm hp _ rfl
    have hnofire : ¬ (t.countPending = 1 ∧ t.terminal = none) := by
      intro h
      simp only [List.length_cons] at hcount
      omega
    obtain ⟨h6a, h6b⟩ := h6 hnofire
    simp only [List.map_cons, List.nodup_cons] at hnodup
    obtain ⟨hc_notin, hnodup'⟩ := hnodup
    have hpend' : ∀ x ∈ c' :: rest,
        x.1 ∈ (t.Complete listeners c.1 c.2).tracked ∧
          (t.Complete listeners c.1 c.2).status x.1 = .Pending := by
      intro x hx
      obtain ⟨hxm, hxp⟩ := hpend x (List.mem_cons_of_mem _ hx)
      have hne : x.1 ≠ c.1 := by
        intro e
        apply hc_notin
        rw [← e]
        exact List.mem_map_of_mem Prod.fst hx
      rw [h1, h2, Function.update_noteq hne]
      exact ⟨hxm, hxp⟩
    have hcount' : (t.Complete listeners c.1 c.2).countPending = (c' :: rest).length := by
      simp only [List.length_cons] at hcount ⊢
      omega
    have hnodup2 : ((c' :: rest).map Prod.fst).Nodup := by
      simpa using hnodup'
    obtain ⟨i1, i2, i3, i4, i5, i6⟩ := ih c' (t.Complete listeners c.1 c.2) h4
      (h6a.trans hterm) (h6b.trans hdel) hnodup2 hpend' hcount'
    have hrun : t.completeAll listeners (c :: c' :: rest)
        = (t.Complete listeners c.1 c.2).completeAll listeners (c' :: rest) := rfl
    refine ⟨?_, ?_, ?_, ?_, ?_, ?_⟩
    · intro k hk
      cases k with
      | zero => exact hdel
      | succ k =>
        have : (t.completeAll listeners ((c :: c' :: rest).take (k + 1)))
            = (t.Complete listeners c.1 c.2).completeAll listeners ((c' :: rest).take k) := rfl
        rw [this]
        exact i1 k (by simpa using hk)
    · rw [hrun]
      exact i2
    · rw [hrun, i3, h1]
    · rw [hrun]
      exact i4
    · intro x hx
      rw [hrun]
      rcases List.mem_cons.mp hx with hxc | hx'
      · subst hxc
        rw [i6 x.1 (by simpa using hc_notin), h2, Function.update_same]
      · exact i5 x hx'
    · intro i hi
      simp only [List.map_cons, List.mem_cons, not_or] at hi
      rw [hrun, i6 i (by simpa using hi.2), h2, Function.update_noteq hi.1]

/-- The dispatch of distinct images that have no state yet registers them, in order and as
`Pending`, and changes nothing else. -/
theorem dispatchAll_fresh :
    ∀ (images : List Nat) (t : ImageLoadTracker), images.Nodup →
      (∀ i ∈ images, i ∉ t.tracked) →
      (t.dispatchAll images).tracked = t.tracked ++ images ∧
      (∀ i ∈ images, (t.dispatchAll images).status i = .Pending) ∧
      (∀ i, i ∉ images → (t.dispatchAll images).status i = t.status i) ∧
      (t.dispatchAll images).terminal = t.terminal ∧
      (t.dispatchAll images).delivered = t.delivered := by
  intro images
  induction images with
  | nil =>
    intro t _ _
    refine ⟨by simp [ImageLoadTracker.dispatchAll], ?_, fun _ _ => rfl, rfl, rfl⟩
    intro i hi
    exact absurd hi (List.not_mem_nil i)
  | cons a images ih =>
    intro t hnodup hfresh
    obtain ⟨ha, hnodup'⟩ := List.nodup_cons.mp hnodup
    have hat : a ∉ t.tracked := hfresh a (List.mem_cons_self _ _)
    have htrack : t.TrackImage a = { t with
        tracked := t.tracked ++ [a]
        status := Function.update t.status a .Pending
        pendingCount := t.pendingCount + 1 } := by
      simp [ImageLoadTracker.TrackImage, hat]
    have hfresh' : ∀ i ∈ images, i ∉ (t.TrackImage a).tracked := by
      intro i hi
      rw [htrack]
      simp only [List.mem_append, List.mem_singleton, not_or]
      exact ⟨hfresh i (List.mem_cons_of_mem _ hi), fun e => ha (e ▸ hi)⟩
    obtain ⟨i1, i2, i3, i4, i5⟩ := ih (t.TrackImage a) hnodup' hfresh'
    have hrun : t.dispatchAll (a :: images) = (t.TrackImage a).dispatchAll images := rfl
    refine ⟨?_, ?_, ?_, ?_, ?_⟩
    · rw [hrun, i1, htrack]
      simp
    · intro i hi
      rw [hrun]
      rcases List.mem_cons.mp hi with e | hi'
      · subst e
        rw [i3 i ha, htrack]
        simp
      · exact i2 i hi'
    · intro i hi
      simp only [List.mem_cons, not_or] at hi
      rw [hrun, i3 i hi.2, htrack]
      simp [Function.update_noteq hi.1]
    · rw [hrun, i4, htrack]
    · rw [hrun, i5, htrack]

theorem format02llu_eq_twoDigits (n : Nat) (h : n < 100) : format02llu n = twoDigits n := by
  revert n
  decide

/-- The index that `IndexOf` finds is the one whose removal erases the first occurrence. -/
theorem indexOf?_erase (e : Nat) (l : List Nat) :
    (l.indexOf? e = none ∧ e ∉ l) ∨
      (∃ i, l.indexOf? e = some i ∧ e ∈ l ∧ l.eraseIdx i = l.erase e) := by
  induction l with
  | nil => exact Or.inl ⟨rfl, List.not_mem_nil e⟩
  | cons x xs ih =>
    by_cases hx : x = e
    · subst hx
      exact Or.inr ⟨0, by simp [List.indexOf?_cons], List.mem_cons_self _ _, by simp⟩
    · have hbeq : (x == e) = false := by simpa using hx
      rcases ih with ⟨hn, hne⟩ | ⟨i, hi, hmem, her⟩
      · refine Or.inl ⟨by simp [List.indexOf?_cons, hbeq, hn], ?_⟩
        intro hm
        rcases List.mem_cons.mp hm with h | h
        · exact hx h.symm
        · exact hne h
      · refine Or.inr ⟨i + 1, by simp [List.indexOf?_cons, hbeq, hi],
          List.mem_cons_of_mem _ hmem, ?_⟩
        rw [List.eraseIdx_cons_succ, her, List.erase_cons, hbeq]
        rfl

/-- The described-by list after `SetAccessibilityProperties`: without the first occurrence of the
error element if the input is valid, and with the element appended, unless it is there, if not. -/
theorem SetAccessibilityProperties_DescribedBy (isInputValid : Bool) (e : Nat)
    (c : ValidationControls) :
    (InputValue.SetAccessibilityProperties isInputValid e c).DescribedBy
      = if isInputValid then c.DescribedBy.erase e
        else if e ∈ c.DescribedBy then c.DescribedBy else c.DescribedBy ++ [e] := by
  rcases indexOf?_erase e c.DescribedBy with ⟨hn, hne⟩ | ⟨i, hi, hmem, her⟩
  · cases isInputValid <;>
      simp [InputValue.SetAccessibilityProperties, hn, hne, List.erase_of_not_mem hne]
  · cases isInputValid <;> simp [InputValue.SetAccessibilityProperties, hi, hmem, her]

/-- The described-by list after `SetValidation` on an input with an error element. -/
theorem SetValidation_DescribedBy_eq (isInputValid : Bool) (c : ValidationControls) (e : Nat)
    (visibility : Visibility) (herr : c.m_validationError = some (e, visibility)) :
    (InputValue.SetValidation isInputValid c).DescribedBy
      = (if isInputValid then c.DescribedBy.erase e
        else if e ∈ c.DescribedBy then c.DescribedBy else c.DescribedBy ++ [e]) ∧
    ∃ after, (InputValue.SetValidation isInputValid c).m_validationError = some (e, after) := by
  cases hb : c.m_validationBorder <;> cases isInputValid <;>
    simp only [InputValue.SetValidation, hb, herr, Bool.false_eq_true, if_false, if_true] <;>
    exact ⟨SetAccessibilityProperties_DescribedBy _ _ _, ⟨_, rfl⟩⟩

/-- Erasing an element does not change the other entries. -/
theorem filter_ne_erase (e : Nat) (l : List Nat) :
    (l.erase e).filter (fun x => decide (x ≠ e)) = l.filter (fun x => decide (x ≠ e)) := by
  induction l with
  | nil => rfl
  | cons x xs ih =>
    by_cases hx : x = e
    · subst hx
      simp
    · have hbeq : (x == e) = false := by simpa using hx
      rw [List.erase_cons, hbeq]
      simp only [ne_eq, decide_not] at ih ⊢
      simp [List.filter_cons, hx, ih]

/-- The channel arithmetic of `GenerateLHoverColor` on a byte. -/
theorem hover_channel (c : Nat) (h : c < 256) : (c - c / 4 % 256) % 256 = c - c / 4 := by
  omega

theorem hover_channel_mono (c d : Nat) (h : c ≤ d) : c - c / 4 ≤ d - d / 4 := by
  omega

theorem hexDigitValue_le (c : Char) : hexDigitValue c ≤ 15 := by
  unfold hexDigitValue
  split
  · omega
  · split
    · omega
    · split <;> omega

/-- The byte that `strtol` reads from two hexadecimal digits. -/
theorem strtol16_two (high low : Char) : strtol16 ⟨[high, low]⟩ % 256 = hexByte high low := by
  have h1 := hexDigitValue_le high
  have h2 := hexDigitValue_le low
  simp only [strtol16, hexByte, List.foldl_cons, List.foldl_nil]
  omega

/-- The loop of `MeetsRequirements` ends with true exactly when it started with true and every
requirement it visited is met. -/
theorem MeetsRequirements_loop_true {V : Type} (SemanticVersion : String → Option V)
    (less : V → V → Bool) (Get : String → String) (requirements : List AdaptiveRequirement)
    (meetsRequirementsLocal : Bool) :
    MeetsRequirements.loop SemanticVersion less Get requirements meetsRequirementsLocal
        = some true ↔
      (meetsRequirementsLocal = true ∧
        ∀ req ∈ requirements, requirementMet SemanticVersion less Get req) := by
  induction requirements generalizing meetsRequirementsLocal with
  | nil => simp [MeetsRequirements.loop]
  | cons req rest ih =>
    by_cases hreg : Get req.Name = ""
    · have he : (Get req.Name).isEmpty = true := (String.isEmpty_iff _).mpr hreg
      have hstep : MeetsRequirements.loop SemanticVersion less Get (req :: rest)
          meetsRequirementsLocal
            = MeetsRequirements.loop SemanticVersion less Get rest false := by
        simp only [MeetsRequirements.loop, he, if_true]
      have hmet : ¬ requirementMet SemanticVersion less Get req := fun h => h.1 hreg
      rw [hstep, ih]
      simp [hmet]
    · have he : (Get req.Name).isEmpty = false := isEmpty_eq_false_of_ne hreg
      by_cases hstar : req.Version = "*"
      · have hstep : MeetsRequirements.loop SemanticVersion less Get (req :: rest)
            meetsRequirementsLocal
              = MeetsRequirements.loop SemanticVersion less Get rest meetsRequirementsLocal := by
          simp [MeetsRequirements.loop, he, hstar]
        have hmet : requirementMet SemanticVersion less Get req := ⟨hreg, Or.inl hstar⟩
        rw [hstep, ih]
        simp [hmet]
      · cases hq : SemanticVersion req.Version with
        | none =>
          have hstep : MeetsRequirements.loop SemanticVersion less Get (req :: rest)
              meetsRequirementsLocal = none := by
            simp [MeetsRequirements.loop, he, hstar, hq]
          have hmet : ¬ requirementMet SemanticVersion less Get req := by
            rintro ⟨_, h | ⟨required, registered, h1, _⟩⟩
            · exact hstar h
            · rw [hq] at h1
              cases h1
          rw [hstep]
          simp [hmet]
        | some required =>
          cases hr : SemanticVersion (Get req.Name) with
          | none =>
            have hstep : MeetsRequirements.loop SemanticVersion less Get (req :: rest)
                meetsRequirementsLocal = none := by
              simp [MeetsRequirements.loop, he, hstar, hq, hr]
            have hmet : ¬ requirementMet SemanticVersion less Get req := by
              rintro ⟨_, h | ⟨_, registered, _, h2, _⟩⟩
              · exact hstar h
              · rw [hr] at h2
                cases h2
            rw [hstep]
            simp [hmet]
          | some registered =>
            cases hl : less registered required with
            | true =>
              have hstep : MeetsRequirements.loop SemanticVersion less Get (req :: rest)
                  meetsRequirementsLocal
                    = MeetsRequirements.loop SemanticVersion less Get rest false := by
                simp [MeetsRequirements.loop, he, hstar, hq, hr, hl]
              have hmet : ¬ requirementMet SemanticVersion less Get req := by
                rintro ⟨_, h | ⟨required', registered', h1, h2, h3⟩⟩
                · exact hstar h
                · rw [hq] at h1
                  rw [hr] at h2
                  cases h1
                  cases h2
                  rw [hl] at h3
                  cases h3
              rw [hstep, ih]
              simp [hmet]
            | false =>
              have hstep : MeetsRequirements.loop SemanticVersion less Get (req :: rest)
                  meetsRequirementsLocal
                    = MeetsRequirements.loop SemanticVersion less Get rest
                        meetsRequirementsLocal := by
                simp [MeetsRequirements.loop, he, hstar, hq, hr, hl]
              have hmet : requirementMet SemanticVersion less Get req :=
                ⟨hreg, Or.inr ⟨required, registered, hq, hr, hl⟩⟩
              rw [hstep, ih]
              simp [hmet]

/-- The loop of `MeetsRequirements` returns when no construction of a version throws. -/
theorem MeetsRequirements_loop_total {V : Type} (SemanticVersion : String → Option V)
    (less : V → V → Bool) (Get : String → String)
    (hparse : ∀ s, (SemanticVersion s).isSome = true)
    (requirements : List AdaptiveRequirement) (meetsRequirementsLocal : Bool) :
    ∃ b, MeetsRequirements.loop SemanticVersion less Get requirements meetsRequirementsLocal
      = some b := by
  induction requirements generalizing meetsRequirementsLocal with
  | nil => exact ⟨_, rfl⟩
  | cons req rest ih =>
    obtain ⟨required, hq⟩ := Option.isSome_iff_exists.mp (hparse req.Version)
    obtain ⟨registered, hr⟩ := Option.isSome_iff_exists.mp (hparse (Get req.Name))
    cases he : (Get req.Name).isEmpty with
    | true => simpa [MeetsRequirements.loop, he] using ih false
    | false =>
      by_cases hstar : req.Version = "*"
      · simpa [MeetsRequirements.loop, he, hstar] using ih meetsRequirementsLocal
      · cases hl : less registered required with
        | true => simpa [MeetsRequirements.loop, he, hstar, hq, hr, hl] using ih false
        | false =>
          simpa [MeetsRequirements.loop, he, hstar, hq, hr, hl] using ih meetsRequirementsLocal

/-- A load dispatched to a resolver by a builder that has listeners and does not leave the
loading to XAML: the image created is registered with the tracker, once, and becomes the image
builder's image; the listeners and the handling flag are as before. -/
theorem SetImageOnUIElement_resolver_tracks (self : XamlBuilder) (schemeName : String)
    (uiElement : Nat) (registered : List String) (isAutoSize : Bool)
    (parentElement : Option Nat) (imageContainer : Nat) (isVisible : Bool)
    (hlisteners : self.m_listeners ≠ []) (hxaml : self.m_enableXamlImageHandling = false)
    (hscheme : schemeName ∈ registered) :
    (self.SetImageOnUIElement schemeName uiElement (some registered) isAutoSize parentElement
        imageContainer isVisible).1.m_imageLoadTracker
      = self.m_imageLoadTracker.TrackImage self.imagesCreated ∧
    (self.SetImageOnUIElement schemeName uiElement (some registered) isAutoSize parentElement
        imageContainer isVisible).1.m_imageBuilder = self.imagesCreated ∧
    (self.SetImageOnUIElement schemeName uiElement (some registered) isAutoSize parentElement
        imageContainer isVisible).1.imagesCreated = self.imagesCreated + 1 ∧
    (self.SetImageOnUIElement schemeName uiElement (some registered) isAutoSize parentElement
        imageContainer isVisible).1.m_listeners = self.m_listeners ∧
    (self.SetImageOnUIElement schemeName uiElement (some registered) isAutoSize parentElement
        imageContainer isVisible).1.m_enableXamlImageHandling = false := by
  have hidem : ∀ (image : Nat) (t : ImageLoadTracker),
      (t.TrackImage image).TrackImage image = t.TrackImage image := by
    intro image t
    by_cases hm : image ∈ t.tracked <;> simp [ImageLoadTracker.TrackImage, hm]
  have hlen : (self.m_listeners.length != 0) = true := by
    cases hl : self.m_listeners with
    | nil => exact absurd hl hlisteners
    | cons a l => simp
  have hlen0 : (self.m_listeners.length == 0) = false := by
    cases hl : self.m_listeners with
    | nil => exact absurd hl hlisteners
    | cons a l => simp
  by_cases hd : schemeName = "data"
  · simp [XamlBuilder.SetImageOnUIElement, hd, hxaml, hlen, hidem, hd ▸ hscheme]
  · simp [XamlBuilder.SetImageOnUIElement, XamlBuilder.PopulateImageFromUrlAsync, hd, hxaml,
      hlen, hlen0, hidem, hscheme]

/-! ## Number: both bounds -/

/-- C1, what the code computes: with both `Min` and `Max` configured and a non-empty current
value that `std::stod` reads as `v`, the assignment of the `Min` comparison replaces the outcome
of the `Max` comparison, so the result is `v >= min` alone, whatever `max` is. -/
theorem NumberInputValue_IsValueValid_both_bounds (p : Platform) (isRequired : Bool)
    (lo hi v : ℚ) (currentValue : String) (hne : currentValue ≠ "")
    (hv : p.stod currentValue = some v) :
    NumberInputValue.IsValueValid p ⟨isRequired, some lo, some hi⟩ (some currentValue)
      = some (decide (lo ≤ v)) := by
  have he := isEmpty_eq_false_of_ne hne
  cases isRequired <;> simp [NumberInputValue.IsValueValid, InputValue.IsValueValid, he, hv]

/-- C1 at `min = 0`, `max = 10`, current value `"11"`: the input is reported valid. -/
theorem NumberInputValue_IsValueValid_both_bounds_witness :
    "11" ≠ "" ∧ examplePlatform.stod "11" = some 11 ∧
      NumberInputValue.IsValueValid examplePlatform ⟨false, some 0, some 10⟩ (some "11")
        = some true :=
  ⟨by decide, by decide,
    (NumberInputValue_IsValueValid_both_bounds examplePlatform false 0 10 11 "11"
      (by decide) (by decide)).trans (by decide)⟩

/-! ## Time: the bounds -/

/-- C2, what the code computes: the `Min` bound is scaled by `1000000 * 60` ticks per minute and
the selected time by `10000000 * 60`, so for a selected time of `m` whole minutes and a `Min` that
parses as `minHours:minMinutes` the input is rejected when `10 * m` is below
`minHours * 60 + minMinutes`, and otherwise the result is the one without a `Min`. -/
theorem TimeInputValue_IsValueValid_min_check (p : Platform) (input : AdaptiveTimeInput)
    (m minHours minMinutes : Nat) (hm : m < 1440) (hmin : input.Min ≠ "")
    (hparse : p.TryParseSimpleTime input.Min = some (minHours, minMinutes))
    (hrange : minHours * 60 + minMinutes < 4294967296) :
    (10 * m < minHours * 60 + minMinutes →
      TimeInputValue.IsValueValid p input (some ((m : Int) * 600000000)) = some false) ∧
    (minHours * 60 + minMinutes ≤ 10 * m →
      TimeInputValue.IsValueValid p input (some ((m : Int) * 600000000))
        = TimeInputValue.IsValueValid p { input with Min := "" } (some ((m : Int) * 600000000))) := by
  have hb := TimeInputValue_base_rule_minutes input.IsRequired m hm
  have he : ("" : String).isEmpty = true := rfl
  constructor
  · intro hlt
    have hd : decide ((m : Int) * 600000000 ≥
        ((minHours * 60 + minMinutes : Nat) : Int) * 1000000 * 60) = false := by
      apply decide_eq_false
      push_cast
      omega
    simp only [TimeInputValue.IsValueValid, hb, isEmpty_eq_false_of_ne hmin, hparse,
      Nat.mod_eq_of_lt hrange, hd]
    split
    · split <;> rfl
    · rfl
  · intro hle
    have hd : decide ((m : Int) * 600000000 ≥
        ((minHours * 60 + minMinutes : Nat) : Int) * 1000000 * 60) = true := by
      apply decide_eq_true
      push_cast
      omega
    simp only [TimeInputValue.IsValueValid, hb, isEmpty_eq_false_of_ne hmin, hparse,
      Nat.mod_eq_of_lt hrange, hd, he]
    simp

/-- C2 at `Min = "10:00"` and the selected time 05:00: the input is reported valid. -/
theorem TimeInputValue_IsValueValid_min_check_witness :
    (300 < 1440 ∧ ("10:00" : String) ≠ "" ∧
      examplePlatform.TryParseSimpleTime "10:00" = some (10, 0) ∧ 10 * 60 + 0 < 4294967296) ∧
    TimeInputValue.IsValueValid examplePlatform ⟨false, "10:00", ""⟩ (some 180000000000)
      = some true :=
  ⟨⟨by decide, by decide, by decide, by decide⟩,
    ((TimeInputValue_IsValueValid_min_check examplePlatform ⟨false, "10:00", ""⟩ 300 10 0
      (by decide) (by decide) (by decide) (by decide)).2 (by decide)).trans (by decide)⟩

/-- C3: for a selected time of `m` whole minutes within the day and a configured `Max` that parses
as `maxHours:maxMinutes`, the input is invalid when `m` exceeds `maxHours * 60 + maxMinutes`, and
otherwise the `Max` check passes: the result is the one of the same input without a `Max`, which
is valid when `Min` is not set or does not parse, and the outcome of the `Min` comparison when
`Min` parses. -/
theorem TimeInputValue_IsValueValid_max_check (p : Platform) (input : AdaptiveTimeInput)
    (m maxHours maxMinutes : Nat) (hm : m < 1440) (hmax : input.Max ≠ "")
    (hparse : p.TryParseSimpleTime input.Max = some (maxHours, maxMinutes))
    (hrange : maxHours * 60 + maxMinutes < 4294967296) :
    (maxHours * 60 + maxMinutes < m →
      TimeInputValue.IsValueValid p input (some ((m : Int) * 600000000)) = some false) ∧
    (m ≤ maxHours * 60 + maxMinutes →
      TimeInputValue.IsValueValid p input (some ((m : Int) * 600000000))
        = TimeInputValue.IsValueValid p { input with Max := "" } (some ((m : Int) * 600000000))) ∧
    (m ≤ maxHours * 60 + maxMinutes →
      (input.Min = "" ∨ p.TryParseSimpleTime input.Min = none) →
      TimeInputValue.IsValueValid p input (some ((m : Int) * 600000000)) = some true) ∧
    (∀ minHours minMinutes : Nat, m ≤ maxHours * 60 + maxMinutes → input.Min ≠ "" →
      p.TryParseSimpleTime input.Min = some (minHours, minMinutes) →
      TimeInputValue.IsValueValid p input (some ((m : Int) * 600000000))
        = some (decide ((m : Int) * 600000000
            ≥ (((minHours * 60 + minMinutes) % 4294967296 : Nat) : Int) * 1000000 * 60))) := by
  have hb := TimeInputValue_base_rule_minutes input.IsRequired m hm
  have he : ("" : String).isEmpty = true := rfl
  have hfalse : maxHours * 60 + maxMinutes < m →
      decide ((m : Int) * 600000000 ≤
        ((maxHours * 60 + maxMinutes : Nat) : Int) * 10000000 * 60) = false := by
    intro hlt
    apply decide_eq_false
    push_cast
    omega
  have htrue : m ≤ maxHours * 60 + maxMinutes →
      decide ((m : Int) * 600000000 ≤
        ((maxHours * 60 + maxMinutes : Nat) : Int) * 10000000 * 60) = true := by
    intro hle
    apply decide_eq_true
    push_cast
    omega
  refine ⟨?_, ?_, ?_, ?_⟩
  · intro hlt
    simp only [TimeInputValue.IsValueValid, hb, isEmpty_eq_false_of_ne hmax, hparse,
      Nat.mod_eq_of_lt hrange, hfalse hlt]
    simp
  · intro hle
    simp only [TimeInputValue.IsValueValid, hb, isEmpty_eq_false_of_ne hmax, hparse,
      Nat.mod_eq_of_lt hrange, htrue hle, he]
    simp
  · intro hle hmin
    rcases hmin with hmin | hmin
    · have hmine : input.Min.isEmpty = true := by rw [hmin]; rfl
      simp only [TimeInputValue.IsValueValid, hb, isEmpty_eq_false_of_ne hmax, hparse,
        Nat.mod_eq_of_lt hrange, htrue hle, hmine]
      simp
    · simp only [TimeInputValue.IsValueValid, hb, isEmpty_eq_false_of_ne hmax, hparse,
        Nat.mod_eq_of_lt hrange, htrue hle, hmin]
      simp
  · intro minHours minMinutes hle hminne hmin
    simp only [TimeInputValue.IsValueValid, hb, isEmpty_eq_false_of_ne hmax, hparse,
      Nat.mod_eq_of_lt hrange, htrue hle, hmin, isEmpty_eq_false_of_ne hminne]
    simp

/-- C3 at `Max = "10:00"` on a required input: the selected time 10:01 is rejected, and the
selected times 10:00 and 00:00 are valid. -/
theorem TimeInputValue_IsValueValid_max_check_witness :
    (601 < 1440 ∧ 600 < 1440 ∧ ("10:00" : String) ≠ "" ∧
      examplePlatform.TryParseSimpleTime "10:00" = some (10, 0) ∧ 10 * 60 + 0 < 4294967296) ∧
    TimeInputValue.IsValueValid examplePlatform ⟨true, "", "10:00"⟩ (some ((601 : Nat) * 600000000))
      = some false ∧
    TimeInputValue.IsValueValid examplePlatform ⟨true, "", "10:00"⟩ (some ((600 : Nat) * 600000000))
      = some true ∧
    TimeInputValue.IsValueValid examplePlatform ⟨true, "", "10:00"⟩ (some ((0 : Nat) * 600000000))
      = some true :=
  ⟨⟨by decide, by decide, by decide, by decide, by decide⟩,
    (TimeInputValue_IsValueValid_max_check examplePlatform ⟨true, "", "10:00"⟩ 601 10 0
      (by decide) (by decide) (by decide) (by decide)).1 (by decide),
    (TimeInputValue_IsValueValid_max_check examplePlatform ⟨true, "", "10:00"⟩ 600 10 0
      (by decide) (by decide) (by decide) (by decide)).2.2.1 (by decide) (Or.inl rfl),
    (TimeInputValue_IsValueValid_max_check examplePlatform ⟨true, "", "10:00"⟩ 0 10 0
      (by decide) (by decide) (by decide) (by decide)).2.2.1 (by decide) (Or.inl rfl)⟩

/-! ## Toggle -/

/-- C4: the toggle is valid exactly when it is not required or the switch is on, and the result
is the same for all `ValueOn` and `ValueOff` strings. -/
theorem ToggleInputValue_IsValueValid_iff (input : AdaptiveToggleInput) (checkedValue : Bool) :
    (ToggleInputValue.IsValueValid input checkedValue = true ↔
      (input.IsRequired = false ∨ checkedValue = true)) ∧
    (∀ valueOn valueOff : String,
      ToggleInputValue.IsValueValid ⟨input.IsRequired, valueOn, valueOff⟩ checkedValue
        = ToggleInputValue.IsValueValid input checkedValue) ∧
    (∀ valueOn valueOff : String,
      ToggleInputValue.IsValueValid ⟨true, valueOn, valueOff⟩ false = false ∧
      ToggleInputValue.IsValueValid ⟨true, valueOn, valueOff⟩ true = true ∧
      ToggleInputValue.IsValueValid ⟨false, valueOn, valueOff⟩ checkedValue = true) ∧
    (∀ p : Platform, InputValueVariant.IsValueValid p (.ToggleInputValue input checkedValue)
      = some (!input.IsRequired || checkedValue)) := by
  refine ⟨?_, ?_, ?_, ?_⟩
  · cases h : input.IsRequired <;> cases checkedValue <;> simp [ToggleInputValue.IsValueValid, h]
  · intro valueOn valueOff
    rfl
  · intro valueOn valueOff
    cases checkedValue <;> simp [ToggleInputValue.IsValueValid]
  · intro p
    cases h : input.IsRequired <;> cases checkedValue <;>
      simp [InputValueVariant.IsValueValid, ToggleInputValue.IsValueValid, h]

/-! ## Required and empty -/

/-- C5 as stated fails: a required toggle that is switched on and whose `ValueOn` is the empty
string, and a required filtered choice set whose typed text matches a choice with the empty string
as its value, have the empty current value and validate. -/
theorem Validate_required_empty_counterexample :
    ¬ (∀ (p : Platform) (self : InputValueVariant) (c : ValidationControls),
        self.IsRequired = true → self.CurrentValue p = some "" →
        (InputValue.Validate p self c).map Prod.fst = some false) ∧
    (InputValue.Validate examplePlatform
        (.FilteredChoiceSetInputValue ⟨true, false, [⟨"Red", ""⟩, ⟨"Blue", "B"⟩]⟩ "red")
        ⟨none, none, [], true⟩).map Prod.fst = some true ∧
    InputValueVariant.CurrentValue examplePlatform
        (.FilteredChoiceSetInputValue ⟨true, false, [⟨"Red", ""⟩, ⟨"Blue", "B"⟩]⟩ "red")
      = some "" := by
  refine ⟨?_, by decide, by decide⟩
  intro h
  have h1 := h examplePlatform (.ToggleInputValue ⟨true, "", "false"⟩ true)
    ⟨none, none, [], true⟩ rfl rfl
  revert h1
  decide

/-- C5 amended: for a required input whose current value is the empty string, `Validate` returns,
and it returns true exactly for a toggle that is switched on and for a filtered choice set whose
non-empty typed text selects a choice; for every other variant and control state it returns
false. -/
theorem Validate_required_empty (p : Platform) (self : InputValueVariant)
    (c : ValidationControls) (hreq : self.IsRequired = true)
    (hcur : self.CurrentValue p = some "") :
    ∃ isValid, InputValue.Validate p self c = some (isValid, InputValue.SetValidation isValid c) ∧
      (isValid = true ↔
        ((∃ input, self = .ToggleInputValue input true) ∨
         (∃ input Text, self = .FilteredChoiceSetInputValue input Text ∧ Text ≠ "" ∧
            (FilteredChoiceSetInputValue.GetSelectedChoice p input Text).isSome = true))) := by
  have he : ("" : String).isEmpty = true := rfl
  cases self with
  | TextInputValue input Text =>
    simp only [InputValueVariant.IsRequired] at hreq
    simp only [InputValueVariant.CurrentValue, Option.some.injEq] at hcur
    subst hcur
    refine ⟨false, ?_, by simp⟩
    simp [InputValue.Validate, InputValueVariant.IsValueValid, InputValueVariant.CurrentValue,
      TextInputBase.IsValueValid, InputValue.IsValueValid, hreq, he]
  | PasswordInputValue input Password =>
    simp only [InputValueVariant.IsRequired] at hreq
    simp only [InputValueVariant.CurrentValue, Option.some.injEq] at hcur
    subst hcur
    refine ⟨false, ?_, by simp⟩
    simp [InputValue.Validate, InputValueVariant.IsValueValid, InputValueVariant.CurrentValue,
      TextInputBase.IsValueValid, InputValue.IsValueValid, hreq, he]
  | NumberInputValue input Text =>
    simp only [InputValueVariant.IsRequired] at hreq
    simp only [InputValueVariant.CurrentValue, Option.some.injEq] at hcur
    subst hcur
    refine ⟨false, ?_, by simp⟩
    simp [InputValue.Validate, InputValueVariant.IsValueValid, InputValueVariant.CurrentValue,
      NumberInputValue.IsValueValid, InputValue.IsValueValid, hreq, he]
  | DateInputValue input Date =>
    simp only [InputValueVariant.IsRequired] at hreq
    simp only [InputValueVariant.CurrentValue] at hcur
    refine ⟨false, ?_, by simp⟩
    simp [InputValue.Validate, InputValueVariant.IsValueValid, InputValueVariant.CurrentValue,
      InputValue.IsValueValid, hreq, he, hcur]
  | TimeInputValue input SelectedTime =>
    simp only [InputValueVariant.IsRequired] at hreq
    simp only [InputValueVariant.CurrentValue] at hcur
    refine ⟨false, ?_, by simp⟩
    simp [InputValue.Validate, InputValueVariant.IsValueValid, TimeInputValue.IsValueValid,
      InputValue.IsValueValid, hreq, he, hcur]
  | ToggleInputValue input checkedValue =>
    simp only [InputValueVariant.IsRequired] at hreq
    refine ⟨checkedValue, ?_, ?_⟩
    · simp [InputValue.Validate, InputValueVariant.IsValueValid, ToggleInputValue.IsValueValid,
        hreq]
    · cases checkedValue <;> simp
  | CompactChoiceSetInputValue input SelectedIndex =>
    simp only [InputValueVariant.IsRequired] at hreq
    simp only [InputValueVariant.CurrentValue] at hcur
    refine ⟨false, ?_, by simp⟩
    simp [InputValue.Validate, InputValueVariant.IsValueValid, InputValueVariant.CurrentValue,
      InputValue.IsValueValid, hreq, he, hcur]
  | ExpandedChoiceSetInputValue input panelChildren =>
    simp only [InputValueVariant.IsRequired] at hreq
    simp only [InputValueVariant.CurrentValue] at hcur
    refine ⟨false, ?_, by simp⟩
    simp [InputValue.Validate, InputValueVariant.IsValueValid, InputValueVariant.CurrentValue,
      InputValue.IsValueValid, hreq, he, hcur]
  | FilteredChoiceSetInputValue input Text =>
    simp only [InputValueVariant.IsRequired] at hreq
    refine ⟨FilteredChoiceSetInputValue.IsValueValid p input Text, ?_, ?_⟩
    · simp [InputValue.Validate, InputValueVariant.IsValueValid]
    · by_cases ht : Text = ""
      · subst ht
        simp [FilteredChoiceSetInputValue.IsValueValid, he, hreq]
      · simp only [FilteredChoiceSetInputValue.IsValueValid, isEmpty_eq_false_of_ne ht]
        constructor
        · intro h
          exact Or.inr ⟨input, Text, rfl, ht, by simpa using h⟩
        · rintro (⟨i, hi⟩ | ⟨i, t, hi, _, hsel⟩)
          · cases hi
          · cases hi
            simpa using hsel

/-- C5 amended, at a required number input with an empty box. -/
theorem Validate_required_empty_witness :
    InputValueVariant.IsRequired (.NumberInputValue ⟨true, some 0, some 10⟩ "") = true ∧
    InputValueVariant.CurrentValue examplePlatform (.NumberInputValue ⟨true, some 0, some 10⟩ "")
      = some "" ∧
    ∃ isValid, InputValue.Validate examplePlatform (.NumberInputValue ⟨true, some 0, some 10⟩ "")
        ⟨some ⟨0, 0, 0, 0⟩, none, [], true⟩
      = some (isValid, InputValue.SetValidation isValid ⟨some ⟨0, 0, 0, 0⟩, none, [], true⟩) ∧
      (isValid = true ↔
        ((∃ input, InputValueVariant.NumberInputValue ⟨true, some 0, some 10⟩ ""
            = .ToggleInputValue input true) ∨
         (∃ input Text, InputValueVariant.NumberInputValue ⟨true, some 0, some 10⟩ ""
            = .FilteredChoiceSetInputValue input Text ∧ Text ≠ "" ∧
            (FilteredChoiceSetInputValue.GetSelectedChoice examplePlatform input Text).isSome
              = true))) :=
  ⟨rfl, rfl, Validate_required_empty examplePlatform (.NumberInputValue ⟨true, some 0, some 10⟩ "")
    ⟨some ⟨0, 0, 0, 0⟩, none, [], true⟩ rfl rfl⟩

/-! ## Text and password: the pattern -/

/-- C6: `TextInputBase::IsValueValid`, the rule of the text and of the password input, returns
true exactly when the base rule holds and no pattern is configured, or the current value is empty,
or the pattern compiles and the whole current value matches it; it returns a result whenever the
pattern compiles. For an engine on which `^[0-9]{3}$` matches `123` and not `12`, the value `123`
is valid, `12` is invalid, and the empty value of a non-required input is valid. -/
theorem TextInputBase_IsValueValid_iff (p : Platform) (input : AdaptiveTextInput)
    (currentValue : String) :
    (TextInputBase.IsValueValid p input (some currentValue) = some true ↔
      (InputValue.IsValueValid input.IsRequired (some currentValue) = some true ∧
        (input.Regex = "" ∨ currentValue = "" ∨
          ∃ pattern, p.regex input.Regex = some pattern ∧ pattern currentValue = true))) ∧
    ((p.regex input.Regex).isSome = true →
      (TextInputBase.IsValueValid p input (some currentValue)).isSome = true) ∧
    InputValueVariant.IsValueValid p (.TextInputValue input currentValue)
      = TextInputBase.IsValueValid p input (some currentValue) ∧
    InputValueVariant.IsValueValid p (.PasswordInputValue input currentValue)
      = TextInputBase.IsValueValid p input (some currentValue) ∧
    (∀ pattern, p.regex "^[0-9]{3}$" = some pattern → pattern "123" = true →
      pattern "12" = false → ∀ isRequired : Bool,
        TextInputBase.IsValueValid p ⟨isRequired, "^[0-9]{3}$"⟩ (some "123") = some true ∧
        TextInputBase.IsValueValid p ⟨isRequired, "^[0-9]{3}$"⟩ (some "12") = some false) ∧
    TextInputBase.IsValueValid p ⟨false, "^[0-9]{3}$"⟩ (some "") = some true := by
  have he : ("" : String).isEmpty = true := rfl
  refine ⟨?_, ?_, rfl, rfl, ?_, ?_⟩
  · by_cases hc : currentValue = ""
    · subst hc
      cases hr : input.IsRequired <;>
        simp [TextInputBase.IsValueValid, InputValue.IsValueValid, he, hr]
    · have hce := isEmpty_eq_false_of_ne hc
      by_cases hx : input.Regex = ""
      · cases hr : input.IsRequired <;>
          simp [TextInputBase.IsValueValid, InputValue.IsValueValid, hce, hr, hx, he]
      · have hxe := isEmpty_eq_false_of_ne hx
        cases hr : input.IsRequired <;> cases hp : p.regex input.Regex <;>
          simp [TextInputBase.IsValueValid, InputValue.IsValueValid, hce, hr, hx, hxe, hc, hp]
  · intro hsome
    obtain ⟨pattern, hp⟩ := Option.isSome_iff_exists.mp hsome
    cases hr : input.IsRequired <;> cases hce : currentValue.isEmpty <;>
      cases hxe : input.Regex.isEmpty <;>
      simp [TextInputBase.IsValueValid, InputValue.IsValueValid, hce, hr, hxe, hp]
  · intro pattern hp h123 h12 isRequired
    have e1 : ("^[0-9]{3}$" : String).isEmpty = false := by decide
    have e2 : ("123" : String).isEmpty = false := by decide
    have e3 : ("12" : String).isEmpty = false := by decide
    cases isRequired <;>
      simp [TextInputBase.IsValueValid, InputValue.IsValueValid, e1, e2, e3, hp, h123, h12]
  · simp [TextInputBase.IsValueValid, InputValue.IsValueValid, he]

/-- C6 on the concrete platform: its engine compiles `^[0-9]{3}$`, and the three examples. -/
theorem TextInputBase_IsValueValid_iff_witness :
    (examplePlatform.regex "^[0-9]{3}$").isSome = true ∧
    TextInputBase.IsValueValid examplePlatform ⟨true, "^[0-9]{3}$"⟩ (some "123") = some true ∧
    TextInputBase.IsValueValid examplePlatform ⟨true, "^[0-9]{3}$"⟩ (some "12") = some false ∧
    TextInputBase.IsValueValid examplePlatform ⟨false, "^[0-9]{3}$"⟩ (some "") = some true :=
  ⟨by decide,
    ((TextInputBase_IsValueValid_iff examplePlatform ⟨true, "^[0-9]{3}$"⟩ "123").2.2.2.2.1
      (fun subject => subject.data.length == 3 && subject.data.all Char.isDigit)
      rfl (by decide) (by decide) true).1,
    ((TextInputBase_IsValueValid_iff examplePlatform ⟨true, "^[0-9]{3}$"⟩ "123").2.2.2.2.1
      (fun subject => subject.data.length == 3 && subject.data.all Char.isDigit)
      rfl (by decide) (by decide) true).2,
    (TextInputBase_IsValueValid_iff examplePlatform ⟨true, "^[0-9]{3}$"⟩ "123").2.2.2.2.2⟩

/-! ## Filtered choice set -/

/-- C7 as stated fails: with the choices `Red` and `RED` the typed text `red` equals two titles
after lower-casing, not exactly one, and the input is valid. -/
theorem FilteredChoiceSetInputValue_IsValueValid_counterexample :
    ¬ (FilteredChoiceSetInputValue.IsValueValid examplePlatform
          ⟨false, false, [⟨"Red", "1"⟩, ⟨"RED", "2"⟩]⟩ "red" = true ↔
        (([⟨"Red", "1"⟩, ⟨"RED", "2"⟩] : List AdaptiveChoiceInput).filter
          (fun choice => decide (examplePlatform.ToLowercase "red"
            = examplePlatform.ToLowercase choice.Title))).length = 1) := by
  decide

/-- C7 amended: empty text is valid exactly when the input is not required, and non-empty text is
valid exactly when its lower-cased form is the lower-cased title of at least one choice; with the
choices `Red` and `Blue`, `red` is valid and `Green` is not. -/
theorem FilteredChoiceSetInputValue_IsValueValid_iff (p : Platform)
    (input : AdaptiveChoiceSetInput) (Text : String) :
    (FilteredChoiceSetInputValue.IsValueValid p input Text = true ↔
      if Text = "" then input.IsRequired = false
      else ∃ choice ∈ input.Choices, p.ToLowercase Text = p.ToLowercase choice.Title) ∧
    (∀ (isRequired isMultiSelect : Bool) (red blue : String),
      FilteredChoiceSetInputValue.IsValueValid examplePlatform
        ⟨isRequired, isMultiSelect, [⟨"Red", red⟩, ⟨"Blue", blue⟩]⟩ "red" = true ∧
      FilteredChoiceSetInputValue.IsValueValid examplePlatform
        ⟨isRequired, isMultiSelect, [⟨"Red", red⟩, ⟨"Blue", blue⟩]⟩ "Green" = false) := by
  constructor
  · by_cases ht : Text = ""
    · subst ht
      have he : ("" : String).isEmpty = true := rfl
      simp [FilteredChoiceSetInputValue.IsValueValid, he]
    · simp only [FilteredChoiceSetInputValue.IsValueValid, isEmpty_eq_false_of_ne ht, ht,
        GetSelectedChoice_eq_find, if_false, List.find?_isSome]
      simp
  · intro isRequired isMultiSelect red blue
    constructor
    · have e : ("red" : String).isEmpty = false := by decide
      have h1 : examplePlatform.ToLowercase "red" = examplePlatform.ToLowercase "Red" := by decide
      simp [FilteredChoiceSetInputValue.IsValueValid, e, GetSelectedChoice_eq_find, h1]
    · have e : ("Green" : String).isEmpty = false := by decide
      have h1 : examplePlatform.ToLowercase "Green" ≠ examplePlatform.ToLowercase "Red" := by
        decide
      have h2 : examplePlatform.ToLowercase "Green" ≠ examplePlatform.ToLowercase "Blue" := by
        decide
      simp [FilteredChoiceSetInputValue.IsValueValid, e, GetSelectedChoice_eq_find, h1, h2]

/-- C8: the current value of the filtered choice set is the empty string when no title equals the
typed text after lower-casing; otherwise it is the value of a choice of the list whose title does,
and it is the value of that choice whenever all the choices whose titles do carry one value. -/
theorem FilteredChoiceSetInputValue_CurrentValue_spec (p : Platform)
    (input : AdaptiveChoiceSetInput) (Text : String) :
    ((∀ choice ∈ input.Choices, p.ToLowercase Text ≠ p.ToLowercase choice.Title) →
      FilteredChoiceSetInputValue.CurrentValue p input Text = "") ∧
    ((∃ choice ∈ input.Choices, p.ToLowercase Text = p.ToLowercase choice.Title) →
      ∃ choice ∈ input.Choices, p.ToLowercase Text = p.ToLowercase choice.Title ∧
        FilteredChoiceSetInputValue.CurrentValue p input Text = choice.Value) ∧
    (∀ choice ∈ input.Choices, p.ToLowercase Text = p.ToLowercase choice.Title →
      (∀ other ∈ input.Choices, p.ToLowercase Text = p.ToLowercase other.Title →
        other.Value = choice.Value) →
      FilteredChoiceSetInputValue.CurrentValue p input Text = choice.Value) := by
  have key : ∀ selected, FilteredChoiceSetInputValue.GetSelectedChoice p input Text
      = some selected →
      selected ∈ input.Choices ∧ p.ToLowercase Text = p.ToLowercase selected.Title := by
    intro selected hsel
    rw [GetSelectedChoice_eq_find] at hsel
    refine ⟨?_, ?_⟩
    · have := List.mem_of_find?_eq_some hsel
      simpa using this
    · have := List.find?_some hsel
      simpa using this
  have none_iff : FilteredChoiceSetInputValue.GetSelectedChoice p input Text = none ↔
      ∀ choice ∈ input.Choices, p.ToLowercase Text ≠ p.ToLowercase choice.Title := by
    rw [GetSelectedChoice_eq_find, List.find?_eq_none]
    simp
  refine ⟨?_, ?_, ?_⟩
  · intro hno
    simp [FilteredChoiceSetInputValue.CurrentValue, none_iff.mpr hno]
  · rintro ⟨choice, hmem, hmatch⟩
    cases hsel : FilteredChoiceSetInputValue.GetSelectedChoice p input Text with
    | none => exact absurd hmatch (none_iff.mp hsel choice hmem)
    | some selected =>
      obtain ⟨h1, h2⟩ := key selected hsel
      exact ⟨selected, h1, h2, by simp [FilteredChoiceSetInputValue.CurrentValue, hsel]⟩
  · intro choice hmem hmatch hall
    cases hsel : FilteredChoiceSetInputValue.GetSelectedChoice p input Text with
    | none => exact absurd hmatch (none_iff.mp hsel choice hmem)
    | some selected =>
      obtain ⟨h1, h2⟩ := key selected hsel
      simp only [FilteredChoiceSetInputValue.CurrentValue, hsel]
      exact hall selected h1 h2

/-- C8 on the choices `Red` and `Blue`: the typed text `red` resolves to the value of `Red`, and
`Green` to the empty string. -/
theorem FilteredChoiceSetInputValue_CurrentValue_spec_witness :
    FilteredChoiceSetInputValue.CurrentValue examplePlatform
      ⟨false, false, [⟨"Red", "R"⟩, ⟨"Blue", "B"⟩]⟩ "red" = "R" ∧
    FilteredChoiceSetInputValue.CurrentValue examplePlatform
      ⟨false, false, [⟨"Red", "R"⟩, ⟨"Blue", "B"⟩]⟩ "Green" = "" :=
  ⟨(FilteredChoiceSetInputValue_CurrentValue_spec examplePlatform
      ⟨false, false, [⟨"Red", "R"⟩, ⟨"Blue", "B"⟩]⟩ "red").2.2 ⟨"Red", "R"⟩
      (by decide) (by decide) (by decide),
    (FilteredChoiceSetInputValue_CurrentValue_spec examplePlatform
      ⟨false, false, [⟨"Red", "R"⟩, ⟨"Blue", "B"⟩]⟩ "Green").1 (by decide)⟩

/-! ## Expanded and compact choice sets: the current value -/

/-- C9: in multi-select mode, for panel children no more than the choices (a vector holds at most
`4294967295` of them), the current value is the values of exactly the switched-on choices, in
display order, joined by single commas; it is the empty string when no child is switched on. -/
theorem ExpandedChoiceSetInputValue_CurrentValue_multiSelect (input : AdaptiveChoiceSetInput)
    (panelChildren : List Bool) (hmulti : input.IsMultiSelect = true)
    (hlen : panelChildren.length ≤ input.Choices.length)
    (hsize : input.Choices.length ≤ 4294967295) :
    ExpandedChoiceSetInputValue.CurrentValue input panelChildren
      = some (String.intercalate "," (selectedValues panelChildren input.Choices)) ∧
    ((∀ element ∈ panelChildren, element = false) →
      ExpandedChoiceSetInputValue.CurrentValue input panelChildren = some "") := by
  have hmain : ExpandedChoiceSetInputValue.CurrentValue input panelChildren
      = some (String.intercalate "," (selectedValues panelChildren input.Choices)) := by
    have hg := gatherMultiSelect_data input hsize panelChildren 0 "" (by omega)
    simp only [List.drop_zero, show ("" : String).data = [] from rfl, List.nil_append] at hg
    simp only [ExpandedChoiceSetInputValue.CurrentValue, hmulti, if_true, hg]
    by_cases hsel : selectedValues panelChildren input.Choices = []
    · rw [hsel]
      rfl
    · rw [flatten_comma_data _ hsel]
      have hne : (⟨(String.intercalate "," (selectedValues panelChildren input.Choices)).data
          ++ [',']⟩ : String) ≠ "" := by
        intro h
        have := congrArg String.data h
        simp only [show ("" : String).data = [] from rfl, List.append_eq_nil] at this
        exact absurd this.2 (List.cons_ne_nil _ _)
      rw [isEmpty_eq_false_of_ne hne]
      simp only [Bool.not_false, if_true, substr_drop_last]
  refine ⟨hmain, ?_⟩
  intro hoff
  rw [hmain]
  have hsel : selectedValues panelChildren input.Choices = [] := by
    simp only [selectedValues, List.map_eq_nil_iff, List.filter_eq_nil_iff]
    intro x hx
    have := hoff x.1 (List.of_mem_zip hx).1
    simp [this]
  rw [hsel]
  rfl

/-- C9 on the children `[off, on, on]` and the values `A`, `B`, `C`: the current value is
`B,C`. -/
theorem ExpandedChoiceSetInputValue_CurrentValue_multiSelect_witness :
    ExpandedChoiceSetInputValue.CurrentValue
      ⟨false, true, [⟨"a", "A"⟩, ⟨"b", "B"⟩, ⟨"c", "C"⟩]⟩ [false, true, true] = some "B,C" :=
  (ExpandedChoiceSetInputValue_CurrentValue_multiSelect
    ⟨false, true, [⟨"a", "A"⟩, ⟨"b", "B"⟩, ⟨"c", "C"⟩]⟩ [false, true, true]
    rfl (by decide) (by decide)).1.trans (by decide)

/-- C10: the compact choice set's current value is the value of the choice at the selected index,
and the empty string for the index `-1`; the expanded single-select choice set's current value is
the value of the choice of the first switched-on child, and the empty string when no child is
switched on. -/
theorem SingleChoice_CurrentValue (input : AdaptiveChoiceSetInput) :
    (∀ (i : Nat) (hlt : i < input.Choices.length), i < 2147483648 →
      CompactChoiceSetInputValue.CurrentValue input (i : Int)
        = some (input.Choices[i]).Value) ∧
    CompactChoiceSetInputValue.CurrentValue input (-1) = some "" ∧
    (input.IsMultiSelect = false →
      ∀ (k : Nat) (rest : List Bool) (hlt : k < input.Choices.length),
        input.Choices.length ≤ 4294967295 →
        ExpandedChoiceSetInputValue.CurrentValue input
            (List.replicate k false ++ true :: rest)
          = some (input.Choices[k]).Value) ∧
    (input.IsMultiSelect = false →
      ∀ panelChildren : List Bool, (∀ element ∈ panelChildren, element = false) →
        ExpandedChoiceSetInputValue.CurrentValue input panelChildren = some "") := by
  refine ⟨?_, ?_, ?_, ?_⟩
  · intro i hlt hi
    have h1 : (((i : Int) % 4294967296).toNat) = i := by omega
    have hne : i ≠ 4294967295 := by omega
    simp [CompactChoiceSetInputValue.CurrentValue, h1, GetChoiceValue, hne,
      List.getElem?_eq_getElem hlt]
  · have h1 : (((-1 : Int) % 4294967296).toNat) = 4294967295 := by decide
    simp [CompactChoiceSetInputValue.CurrentValue, h1, GetChoiceValue]
  · intro hsingle k rest hlt hsize
    have hf := findSelectedIndex_first_on k rest 0 (by omega)
    simp only [Nat.zero_add] at hf
    simp only [ExpandedChoiceSetInputValue.CurrentValue, hsingle, Bool.false_eq_true, if_false,
      hf]
    exact GetChoiceValue_of_lt input k hlt hsize
  · intro hsingle panelChildren hoff
    simp [ExpandedChoiceSetInputValue.CurrentValue, hsingle,
      findSelectedIndex_all_off panelChildren hoff 0, GetChoiceValue]

/-- C10 on the choices with values `A`, `B`, `C`: index 1 of the selector gives `B`, and the
children `[off, off, on]` of the single-select panel give `C`. -/
theorem SingleChoice_CurrentValue_witness :
    CompactChoiceSetInputValue.CurrentValue
      ⟨false, false, [⟨"a", "A"⟩, ⟨"b", "B"⟩, ⟨"c", "C"⟩]⟩ 1 = some "B" ∧
    ExpandedChoiceSetInputValue.CurrentValue
      ⟨false, false, [⟨"a", "A"⟩, ⟨"b", "B"⟩, ⟨"c", "C"⟩]⟩ [false, false, true] = some "C" :=
  ⟨(SingleChoice_CurrentValue ⟨false, false, [⟨"a", "A"⟩, ⟨"b", "B"⟩, ⟨"c", "C"⟩]⟩).1 1
      (by decide) (by decide),
    (SingleChoice_CurrentValue ⟨false, false, [⟨"a", "A"⟩, ⟨"b", "B"⟩, ⟨"c", "C"⟩]⟩).2.2.1 rfl
      2 [] (by decide) (by decide)⟩

/-! ## The base rule and `Validate` -/

/-- C11: the base rule returns false exactly when the input is required and the current value is
empty; for an input that is not required it returns true for every current value, and without
calling `CurrentValue`. -/
theorem InputValue_IsValueValid_base_rule (isRequired : Bool) (currentValue : String) :
    (InputValue.IsValueValid isRequired (some currentValue) = some false ↔
      (isRequired = true ∧ currentValue = "")) ∧
    InputValue.IsValueValid isRequired (some currentValue)
      = some (!(isRequired && currentValue.isEmpty)) ∧
    (∀ CurrentValue : Option String, InputValue.IsValueValid false CurrentValue = some true) := by
  refine ⟨?_, ?_, fun _ => rfl⟩
  · by_cases hc : currentValue = ""
    · subst hc
      have he : ("" : String).isEmpty = true := rfl
      cases isRequired <;> simp [InputValue.IsValueValid, he]
    · cases isRequired <;> simp [InputValue.IsValueValid, isEmpty_eq_false_of_ne hc, hc]
  · cases isRequired <;> simp [InputValue.IsValueValid]

/-- C12: when the variant's `IsValueValid` computes `isValid`, `Validate` returns `isValid`, and in
the controls afterwards a validation border has thickness 0 on all sides if valid and 1 on all
sides if not, and a validation-error element is collapsed if valid and visible if not; an absent
border or error element stays absent. -/
theorem InputValue_Validate_indication (p : Platform) (self : InputValueVariant)
    (c : ValidationControls) (isValid : Bool) (h : self.IsValueValid p = some isValid) :
    ∃ after, InputValue.Validate p self c = some (isValid, after) ∧
      (c.m_validationBorder.isSome = true →
        after.m_validationBorder = some (if isValid then ⟨0, 0, 0, 0⟩ else ⟨1, 1, 1, 1⟩)) ∧
      (c.m_validationBorder = none → after.m_validationBorder = none) ∧
      (∀ uiValidationError visibility, c.m_validationError = some (uiValidationError, visibility) →
        after.m_validationError
          = some (uiValidationError,
              if isValid then Visibility.Collapsed else Visibility.Visible)) ∧
      (c.m_validationError = none → after.m_validationError = none) := by
  refine ⟨InputValue.SetValidation isValid c, ?_, ?_, ?_, ?_, ?_⟩
  · simp [InputValue.Validate, h]
  · intro hb
    obtain ⟨t, ht⟩ := Option.isSome_iff_exists.mp hb
    cases he : c.m_validationError with
    | none => cases isValid <;> simp [InputValue.SetValidation, ht, he]
    | some e =>
      cases isValid <;>
        simp [InputValue.SetValidation, InputValue.SetAccessibilityProperties, ht, he]
  · intro hb
    cases he : c.m_validationError with
    | none => simp [InputValue.SetValidation, hb, he]
    | some e =>
      cases isValid <;>
        simp [InputValue.SetValidation, InputValue.SetAccessibilityProperties, hb, he]
  · intro uiValidationError visibility he
    cases hb : c.m_validationBorder with
    | none =>
      cases isValid <;>
        simp [InputValue.SetValidation, InputValue.SetAccessibilityProperties, hb, he]
    | some t =>
      cases isValid <;>
        simp [InputValue.SetValidation, InputValue.SetAccessibilityProperties, hb, he]
  · intro he
    cases hb : c.m_validationBorder with
    | none => simp [InputValue.SetValidation, hb, he]
    | some t => cases isValid <;> simp [InputValue.SetValidation, hb, he]

/-- C12 on a required text input with an empty box, a border and an error element: `Validate`
returns false, the border gets thickness 1 and the error element becomes visible. -/
theorem InputValue_Validate_indication_witness :
    InputValueVariant.IsValueValid examplePlatform (.TextInputValue ⟨true, ""⟩ "") = some false ∧
    ∃ after, InputValue.Validate examplePlatform (.TextInputValue ⟨true, ""⟩ "")
        ⟨some ⟨0, 0, 0, 0⟩, some (7, Visibility.Collapsed), [], true⟩ = some (false, after) ∧
      after.m_validationBorder = some ⟨1, 1, 1, 1⟩ ∧
      after.m_validationError = some (7, Visibility.Visible) := by
  refine ⟨by decide, ?_⟩
  obtain ⟨after, h1, h2, _, h4, _⟩ := InputValue_Validate_indication examplePlatform
    (.TextInputValue ⟨true, ""⟩ "") ⟨some ⟨0, 0, 0, 0⟩, some (7, Visibility.Collapsed), [], true⟩
    false (by decide)
  exact ⟨after, h1, h2 rfl, h4 7 Visibility.Collapsed rfl⟩

/-! ## Text: a pattern that cannot be parsed -/

/-- C13 as stated fails: for a pattern the `std::regex` constructor rejects and a non-empty
current value, `TextInputBase::IsValueValid` does not return the result of the base rule; the
constructor's `std::regex_error` leaves the function. -/
theorem TextInputBase_IsValueValid_malformed_counterexample :
    ¬ (∀ (p : Platform) (input : AdaptiveTextInput) (currentValue : String),
        p.regex input.Regex = none →
        TextInputBase.IsValueValid p input (some currentValue)
          = InputValue.IsValueValid input.IsRequired (some currentValue)) ∧
    examplePlatform.regex "(" = none ∧
    TextInputBase.IsValueValid examplePlatform ⟨false, "("⟩ (some "abc") = none ∧
    InputValue.IsValueValid false (some "abc") = some true := by
  refine ⟨?_, rfl, by decide, by decide⟩
  intro h
  have h1 := h examplePlatform ⟨false, "("⟩ "abc" rfl
  revert h1
  decide

/-- C13 amended: for a configured pattern that the `std::regex` constructor rejects, the pattern
check is skipped only for an empty current value, where the result is that of the base rule; for
every non-empty current value the function throws and has no result. -/
theorem TextInputBase_IsValueValid_malformed (p : Platform) (input : AdaptiveTextInput)
    (currentValue : String) (hcfg : input.Regex ≠ "") (hbad : p.regex input.Regex = none) :
    TextInputBase.IsValueValid p input (some currentValue)
      = if currentValue = "" then InputValue.IsValueValid input.IsRequired (some currentValue)
        else none := by
  have hx := isEmpty_eq_false_of_ne hcfg
  by_cases hc : currentValue = ""
  · subst hc
    have he : ("" : String).isEmpty = true := rfl
    cases hr : input.IsRequired <;>
      simp [TextInputBase.IsValueValid, InputValue.IsValueValid, he, hr]
  · have hce := isEmpty_eq_false_of_ne hc
    cases hr : input.IsRequired <;>
      simp [TextInputBase.IsValueValid, InputValue.IsValueValid, hce, hr, hx, hbad, hc]

/-- C13 amended, on the pattern `(`: no result for the value `abc`, and the base rule's result for
the empty value. -/
theorem TextInputBase_IsValueValid_malformed_witness :
    (("(" : String) ≠ "" ∧ examplePlatform.regex "(" = none) ∧
    TextInputBase.IsValueValid examplePlatform ⟨true, "("⟩ (some "abc") = none ∧
    TextInputBase.IsValueValid examplePlatform ⟨true, "("⟩ (some "") = some false :=
  ⟨⟨by decide, rfl⟩,
    (TextInputBase_IsValueValid_malformed examplePlatform ⟨true, "("⟩ "abc" (by decide) rfl).trans
      (by decide),
    (TextInputBase_IsValueValid_malformed examplePlatform ⟨true, "("⟩ "" (by decide) rfl).trans
      (by decide)⟩

/-! ## Number: what is not a number, and a single bound -/

/-- C14, what the code computes: a non-empty current value is taken as a number whenever
`std::stod` converts it, and `std::stod` converts the longest numeric start of the text and
ignores the rest; with no bounds such a value is valid, whatever follows its numeric start. -/
theorem NumberInputValue_IsValueValid_numeric_start (p : Platform) (isRequired : Bool)
    (currentValue : String) (v : ℚ) (hne : currentValue ≠ "")
    (hv : p.stod currentValue = some v) :
    NumberInputValue.IsValueValid p ⟨isRequired, none, none⟩ (some currentValue) = some true := by
  have he := isEmpty_eq_false_of_ne hne
  cases isRequired <;> simp [NumberInputValue.IsValueValid, InputValue.IsValueValid, he, hv]

/-- C14 at the current value `5abc`, which is not the text of a number: `std::stod` gives 5 and
the input is reported valid. -/
theorem NumberInputValue_IsValueValid_numeric_start_witness :
    (("5abc" : String) ≠ "" ∧ examplePlatform.stod "5abc" = some 5) ∧
    NumberInputValue.IsValueValid examplePlatform ⟨true, none, none⟩ (some "5abc") = some true :=
  ⟨⟨by decide, by decide⟩,
    NumberInputValue_IsValueValid_numeric_start examplePlatform true "5abc" 5
      (by decide) (by decide)⟩

/-- C15: with at most one bound configured, the number input is valid exactly when the base rule
holds and the current value is empty or `std::stod` reads it as a `v` that is at most `Max` when
`Max` is configured and at least `Min` when `Min` is configured; the function always returns, and
an empty value of an input that is not required is valid. -/
theorem NumberInputValue_IsValueValid_one_bound (p : Platform) (input : AdaptiveNumberInput)
    (currentValue : String) (hone : input.Min = none ∨ input.Max = none) :
    (NumberInputValue.IsValueValid p input (some currentValue) = some true ↔
      (InputValue.IsValueValid input.IsRequired (some currentValue) = some true ∧
        (currentValue = "" ∨
          ∃ v, p.stod currentValue = some v ∧ (∀ hi, input.Max = some hi → v ≤ hi) ∧
            (∀ lo, input.Min = some lo → lo ≤ v)))) ∧
    (NumberInputValue.IsValueValid p input (some currentValue)).isSome = true ∧
    NumberInputValue.IsValueValid p ⟨false, input.Min, input.Max⟩ (some "") = some true := by
  have he : ("" : String).isEmpty = true := rfl
  refine ⟨?_, ?_, ?_⟩
  · by_cases hc : currentValue = ""
    · subst hc
      cases hr : input.IsRequired <;>
        simp [NumberInputValue.IsValueValid, InputValue.IsValueValid, he, hr]
    · have hce := isEmpty_eq_false_of_ne hc
      rcases hone with hmin | hmax
      · cases hr : input.IsRequired <;> cases hs : p.stod currentValue <;>
          cases hmax : input.Max <;>
          simp [NumberInputValue.IsValueValid, InputValue.IsValueValid, hce, hr, hs, hmin, hmax,
            hc]
      · cases hr : input.IsRequired <;> cases hs : p.stod currentValue <;>
          cases hmin : input.Min <;>
          simp [NumberInputValue.IsValueValid, InputValue.IsValueValid, hce, hr, hs, hmin, hmax,
            hc]
  · cases hr : input.IsRequired <;> cases hce : currentValue.isEmpty <;>
      cases hs : p.stod currentValue <;>
      simp [NumberInputValue.IsValueValid, InputValue.IsValueValid, hce, hr, hs]
  · simp [NumberInputValue.IsValueValid, InputValue.IsValueValid, he]

/-- C15 with only `Max = 10` configured: `11` is invalid and `5` is valid. -/
theorem NumberInputValue_IsValueValid_one_bound_witness :
    ((none : Option ℚ) = none ∨ (some 10 : Option ℚ) = none) ∧
    NumberInputValue.IsValueValid examplePlatform ⟨true, none, some 10⟩ (some "11") ≠ some true ∧
    NumberInputValue.IsValueValid examplePlatform ⟨true, none, some 10⟩ (some "5") = some true := by
  refine ⟨Or.inl rfl, ?_, ?_⟩
  · rw [Ne, (NumberInputValue_IsValueValid_one_bound examplePlatform ⟨true, none, some 10⟩ "11"
      (Or.inl rfl)).1]
    rintro ⟨_, h | ⟨v, hv, hmax, _⟩⟩
    · exact absurd h (by decide)
    · have h11 : examplePlatform.stod "11" = some 11 := by decide
      rw [h11] at hv
      cases hv
      exact absurd (hmax 10 rfl) (by norm_num)
  · exact (NumberInputValue_IsValueValid_one_bound examplePlatform ⟨true, none, some 10⟩ "5"
      (Or.inl rfl)).1.mpr ⟨by decide, Or.inr ⟨5, by decide, fun hi h => by cases h; norm_num,
        fun lo h => by cases h⟩⟩

/-! ## The image pipeline -/

/-- C16, what the code computes: when a resolver is registered for the scheme, the call starts the
resolver's operation and then goes on, as the resolver branch does not return: it also starts the
write of the decoded data when the scheme is `data`, and otherwise the built-in loader or the
explicit fetch. Two loads are started, not one. -/
theorem SetImageOnUIElement_resolver_falls_through (self : XamlBuilder) (schemeName : String)
    (uiElement : Nat) (registered : List String) (isAutoSize : Bool)
    (parentElement : Option Nat) (imageContainer : Nat) (isVisible : Bool)
    (hreg : schemeName ∈ registered) :
    (self.SetImageOnUIElement schemeName uiElement (some registered) isAutoSize parentElement
        imageContainer isVisible).2.filter ImageCall.isLoadStart
      = [ImageCall.GetResourceStreamAsync schemeName,
          if schemeName = "data" then ImageCall.StoreAsync
          else if self.m_enableXamlImageHandling || self.m_listeners.length == 0 then
            ImageCall.SetUriSource self.imagesCreated
          else ImageCall.GetInputStreamAsync] := by
  by_cases hd : schemeName = "data"
  · subst hd
    cases hx : self.m_enableXamlImageHandling <;> cases hl : self.m_listeners <;>
      simp [XamlBuilder.SetImageOnUIElement, hreg, hx, hl, ImageCall.isLoadStart]
  · cases hx : self.m_enableXamlImageHandling <;> cases hl : self.m_listeners <;>
      cases isAutoSize <;> cases parentElement <;>
      simp [XamlBuilder.SetImageOnUIElement, XamlBuilder.PopulateImageFromUrlAsync,
        XamlBuilder.SetAutoSize, hreg, hd, hx, hl, ImageCall.isLoadStart]

/-- C16 at the scheme `symbol` with a resolver registered for it and no listeners: the resolver's
operation and the built-in loader are both started. -/
theorem SetImageOnUIElement_resolver_falls_through_witness :
    "symbol" ∈ ["symbol"] ∧
    ((XamlBuilder.new [] false).SetImageOnUIElement "symbol" 1 (some ["symbol"]) false none 1
        true).2.filter ImageCall.isLoadStart
      = [ImageCall.GetResourceStreamAsync "symbol", ImageCall.SetUriSource 0] :=
  ⟨by decide,
    (SetImageOnUIElement_resolver_falls_through (XamlBuilder.new [] false) "symbol" 1 ["symbol"]
      false none 1 true (by decide)).trans (by decide)⟩

/-- C17, what the code computes: the `Completed` handler of the resolver's operation captures no
image and marks, on a failure, the image that `m_imageBuilder` holds when the handler runs. After
two loads dispatched to a resolver by a builder with a listener, both images are registered as
`Pending`; the failure of the first operation, a status other than `Completed` or a null stream,
marks the second image `Failed`, leaves the first, whose load it was, `Pending`, and makes no
call; `Completed` with a stream sets the source of the first destination to the second image. -/
theorem getResourceStreamCompleted_marks_current_image (self dispatched : XamlBuilder)
    (schemeName : String) (registered : List String) (uiElement0 uiElement1 : Nat)
    (isAutoSize : Bool) (parentElement : Option Nat) (imageContainer : Nat) (isVisible : Bool)
    (status : AsyncStatus) (GetResults : Option Nat)
    (hlisteners : self.m_listeners ≠ []) (hxaml : self.m_enableXamlImageHandling = false)
    (hscheme : schemeName ∈ registered)
    (hfresh : ∀ image ∈ self.m_imageLoadTracker.tracked, image < self.imagesCreated)
    (hdispatched : dispatched
      = ((self.SetImageOnUIElement schemeName uiElement0 (some registered) isAutoSize
            parentElement imageContainer isVisible).1.SetImageOnUIElement schemeName uiElement1
          (some registered) isAutoSize parentElement imageContainer isVisible).1) :
    (self.imagesCreated ∈ dispatched.m_imageLoadTracker.tracked ∧
      dispatched.m_imageLoadTracker.status self.imagesCreated = .Pending ∧
      self.imagesCreated + 1 ∈ dispatched.m_imageLoadTracker.tracked ∧
      dispatched.m_imageLoadTracker.status (self.imagesCreated + 1) = .Pending) ∧
    ((status ≠ .Completed ∨ GetResults = none) →
      ∃ after,
        XamlBuilder.getResourceStreamCompleted uiElement0 isAutoSize status GetResults
          (some dispatched) = (some after, []) ∧
        after.m_imageLoadTracker.status self.imagesCreated = .Pending ∧
        after.m_imageLoadTracker.status (self.imagesCreated + 1) = .Failed) ∧
    (∀ randomAccessStream, status = .Completed → GetResults = some randomAccessStream →
      XamlBuilder.getResourceStreamCompleted uiElement0 isAutoSize status GetResults
          (some dispatched)
        = (some dispatched,
            [ImageCall.SetImageSource uiElement0 (self.imagesCreated + 1),
              ImageCall.SetAsyncSource (self.imagesCreated + 1) randomAccessStream
                isAutoSize])) := by
  obtain ⟨h1t, h1b, h1c, h1l, h1x⟩ := SetImageOnUIElement_resolver_tracks self schemeName
    uiElement0 registered isAutoSize parentElement imageContainer isVisible hlisteners hxaml
    hscheme
  obtain ⟨h2t, h2b, _, h2l, _⟩ := SetImageOnUIElement_resolver_tracks
    (self.SetImageOnUIElement schemeName uiElement0 (some registered) isAutoSize parentElement
      imageContainer isVisible).1 schemeName uiElement1 registered isAutoSize parentElement
    imageContainer isVisible (by rw [h1l]; exact hlisteners) h1x hscheme
  rw [h1t, h1c] at h2t
  rw [h1c] at h2b
  rw [← hdispatched] at h2t h2b h2l
  have hn0 : self.imagesCreated ∉ self.m_imageLoadTracker.tracked :=
    fun hm => Nat.lt_irrefl _ (hfresh _ hm)
  have hn1 : self.imagesCreated + 1 ∉ self.m_imageLoadTracker.tracked :=
    fun hm => absurd (hfresh _ hm) (by omega)
  have hne : self.imagesCreated + 1 ≠ self.imagesCreated := by omega
  have htracked : dispatched.m_imageLoadTracker.tracked
      = self.m_imageLoadTracker.tracked ++ [self.imagesCreated] ++ [self.imagesCreated + 1] := by
    rw [h2t]
    simp [ImageLoadTracker.TrackImage, hn0, hn1, hne]
  have hstatus : dispatched.m_imageLoadTracker.status
      = Function.update (Function.update self.m_imageLoadTracker.status self.imagesCreated
          ImageLoadStatus.Pending) (self.imagesCreated + 1) ImageLoadStatus.Pending := by
    rw [h2t]
    simp [ImageLoadTracker.TrackImage, hn0, hn1, hne]
  have hcount : dispatched.m_imageLoadTracker.pendingCount
      = self.m_imageLoadTracker.pendingCount + 1 + 1 := by
    rw [h2t]
    simp [ImageLoadTracker.TrackImage, hn0, hn1, hne]
  have hp0 : dispatched.m_imageLoadTracker.status self.imagesCreated = .Pending := by
    rw [hstatus]
    simp [Function.update, hne.symm]
  have hp1 : dispatched.m_imageLoadTracker.status (self.imagesCreated + 1) = .Pending := by
    rw [hstatus]
    simp [Function.update]
  have hm0 : self.imagesCreated ∈ dispatched.m_imageLoadTracker.tracked := by
    rw [htracked]
    simp
  have hm1 : self.imagesCreated + 1 ∈ dispatched.m_imageLoadTracker.tracked := by
    rw [htracked]
    simp
  have hmark :
      (dispatched.m_imageLoadTracker.MarkFailedLoadImage dispatched.m_listeners
          dispatched.m_imageBuilder).status self.imagesCreated = .Pending ∧
      (dispatched.m_imageLoadTracker.MarkFailedLoadImage dispatched.m_listeners
          dispatched.m_imageBuilder).status (self.imagesCreated + 1) = .Failed := by
    rw [h2b]
    have hc : ¬ (dispatched.m_imageLoadTracker.pendingCount - 1 = 0 ∧
        dispatched.m_imageLoadTracker.terminal = none) := by
      rw [hcount]
      intro h
      omega
    simp only [ImageLoadTracker.MarkFailedLoadImage, ImageLoadTracker.Complete, hm1, hp1,
      and_self, if_true, Bool.false_eq_true, if_false, hc]
    simp [Function.update, hne.symm, hp0]
  refine ⟨⟨hm0, hp0, hm1, hp1⟩, ?_, ?_⟩
  · intro h
    by_cases hs : status = .Completed
    · have hr : GetResults = none := h.resolve_left (fun hne => hne hs)
      subst hr
      exact ⟨{ dispatched with
          m_imageLoadTracker :=
            dispatched.m_imageLoadTracker.MarkFailedLoadImage dispatched.m_listeners
              dispatched.m_imageBuilder },
        by simp [XamlBuilder.getResourceStreamCompleted, hs], hmark.1, hmark.2⟩
    · exact ⟨{ dispatched with
          m_imageLoadTracker :=
            dispatched.m_imageLoadTracker.MarkFailedLoadImage dispatched.m_listeners
              dispatched.m_imageBuilder },
        by simp [XamlBuilder.getResourceStreamCompleted, hs], hmark.1, hmark.2⟩
  · intro randomAccessStream hs hr
    simp [XamlBuilder.getResourceStreamCompleted, hs, hr, h2b]

/-- C17 on a new builder with one listener and two images of the scheme `symbol`, which has a
resolver: the operation of image 0 ends with the status `Error`, and image 1 is marked `Failed`
while image 0 stays `Pending`. -/
theorem getResourceStreamCompleted_marks_current_image_witness :
    ((XamlBuilder.new [5] false).m_listeners ≠ [] ∧
      (XamlBuilder.new [5] false).m_enableXamlImageHandling = false ∧
      "symbol" ∈ ["symbol"]) ∧
    ∃ after,
      XamlBuilder.getResourceStreamCompleted 1 false AsyncStatus.Error none
          (some (((XamlBuilder.new [5] false).SetImageOnUIElement "symbol" 1 (some ["symbol"])
              false none 1 true).1.SetImageOnUIElement "symbol" 2 (some ["symbol"]) false none 1
            true).1) = (some after, []) ∧
      after.m_imageLoadTracker.status 0 = .Pending ∧
      after.m_imageLoadTracker.status 1 = .Failed := by
  refine ⟨⟨by decide, rfl, by decide⟩, ?_⟩
  exact (getResourceStreamCompleted_marks_current_image (XamlBuilder.new [5] false) _ "symbol"
    ["symbol"] 1 2 false none 1 true AsyncStatus.Error none (by decide) rfl (by decide)
    (by intro image h; exact absurd h (List.not_mem_nil image)) rfl).2.1 (Or.inl (by decide))

/-- C18, what the code computes: `PopulateImageFromUrlAsync` registers the image builder's image
with the tracker, where its state is `Pending`, and the `Completed` handler of the fetch never
touches the tracker: for a status other than `Completed` it does nothing at all, so the image
stays `Pending`, and for `Completed` it only starts the copy of the stream. The handler of the
data writer does not touch the tracker either. -/
theorem PopulateImageFromUrlAsync_completion_leaves_pending (self : XamlBuilder)
    (status : AsyncStatus) (hnew : self.m_imageBuilder ∉ self.m_imageLoadTracker.tracked) :
    self.PopulateImageFromUrlAsync.1.m_imageLoadTracker.status self.m_imageBuilder = .Pending ∧
    self.m_imageBuilder ∈ self.PopulateImageFromUrlAsync.1.m_imageLoadTracker.tracked ∧
    (status ≠ .Completed →
      XamlBuilder.getStreamCompleted status (some self.PopulateImageFromUrlAsync.1)
        = (some self.PopulateImageFromUrlAsync.1, [])) ∧
    (∃ after calls,
      XamlBuilder.getStreamCompleted status (some self.PopulateImageFromUrlAsync.1)
        = (some after, calls) ∧
      after.m_imageLoadTracker = self.PopulateImageFromUrlAsync.1.m_imageLoadTracker ∧
      after.m_imageLoadTracker.status self.m_imageBuilder = .Pending) ∧
    (∀ (uiElement : Nat) (isAutoSize : Bool) (DetachStream : Option Nat) (builder : XamlBuilder),
      ∃ after calls,
        XamlBuilder.streamWriteCompleted uiElement isAutoSize status DetachStream (some builder)
          = (some after, calls) ∧
        after.m_imageLoadTracker = builder.m_imageLoadTracker) := by
  have hp : self.PopulateImageFromUrlAsync.1.m_imageLoadTracker.status self.m_imageBuilder
      = .Pending := by
    simp [XamlBuilder.PopulateImageFromUrlAsync, ImageLoadTracker.TrackImage, hnew]
  refine ⟨hp, ?_, ?_, ?_, ?_⟩
  · simp [XamlBuilder.PopulateImageFromUrlAsync, ImageLoadTracker.TrackImage, hnew]
  · intro hs
    simp [XamlBuilder.getStreamCompleted, hs]
  · by_cases hs : status = .Completed
    · exact ⟨{ self.PopulateImageFromUrlAsync.1 with
          m_copyStreamOperations := self.PopulateImageFromUrlAsync.1.m_copyStreamOperations + 1 },
        [ImageCall.CopyAsync], by simp [XamlBuilder.getStreamCompleted, hs], rfl, hp⟩
    · exact ⟨self.PopulateImageFromUrlAsync.1, [], by simp [XamlBuilder.getStreamCompleted, hs],
        rfl, hp⟩
  · intro uiElement isAutoSize DetachStream builder
    cases DetachStream with
    | none => exact ⟨builder, [], rfl, rfl⟩
    | some stream => exact ⟨builder, _, rfl, rfl⟩

/-- C18 on a builder with one listener: the fetch of its image ends with the status `Error`, and
the image is still `Pending` in the tracker, whose pending count is still 1. -/
theorem PopulateImageFromUrlAsync_completion_leaves_pending_witness :
    (0 ∉ (XamlBuilder.new [5] false).m_imageLoadTracker.tracked ∧
      AsyncStatus.Error ≠ AsyncStatus.Completed) ∧
    ∃ after,
      XamlBuilder.getStreamCompleted AsyncStatus.Error
          (some (XamlBuilder.new [5] false).PopulateImageFromUrlAsync.1) = (some after, []) ∧
      after.m_imageLoadTracker.status 0 = .Pending ∧
      after.m_imageLoadTracker.pendingCount = 1 ∧
      after.m_imageLoadTracker.delivered = [] := by
  refine ⟨⟨by decide, by decide⟩, ?_⟩
  have h := PopulateImageFromUrlAsync_completion_leaves_pending (XamlBuilder.new [5] false)
    AsyncStatus.Error (by decide)
  exact ⟨_, h.2.2.1 (by decide), h.1, by decide, by decide⟩

/-- C19: once the builder is destroyed, so that `weakThis.get()` is null, each `Completed` handler
of the image pipeline (of the resolver's operation, of the data writer, of the fetch) and the
handler given to `SetAsyncSource` leave without a call and without a builder to read or change,
for every status and result; the handler of the stream copy rewinds its own stream only. -/
theorem completion_handlers_after_teardown (uiElement : Nat) (isAutoSize : Bool)
    (status : AsyncStatus) (GetResults DetachStream parentElement : Option Nat)
    (imageContainer : Nat) (isVisible : Bool) (randomAccessStream : Nat) :
    XamlBuilder.getResourceStreamCompleted uiElement isAutoSize status GetResults none
      = (none, []) ∧
    XamlBuilder.streamWriteCompleted uiElement isAutoSize status DetachStream none
      = (none, []) ∧
    XamlBuilder.getStreamCompleted status none = (none, []) ∧
    XamlBuilder.setAsyncSourceCompleted uiElement parentElement imageContainer isVisible none
      = (none, []) ∧
    XamlBuilder.copyStreamCompleted randomAccessStream status none
      = (none, [ImageCall.Seek randomAccessStream]) := by
  refine ⟨?_, rfl, ?_, rfl, rfl⟩
  · cases status <;> simp [XamlBuilder.getResourceStreamCompleted]
  · cases status <;> simp [XamlBuilder.getStreamCompleted]

/-! ## Completion aggregation -/

/-- C20, on the tracker modelled from the spec: for `N >= 1` distinct images dispatched in one
pass and completions of exactly these images in any order, each a success or a failure, nothing
is delivered to the listeners before the `N`-th completion, and the `N`-th completion delivers one
notification to each listener, `AllImagesLoaded` when every load succeeded and
`ImagesLoadingHadError` otherwise; during the dispatches and the completions the pending count is
the number of images whose state is `Pending`, and it is zero at the end. -/
theorem ImageLoadTracker_aggregate_once (listeners images : List Nat)
    (completions : List (Nat × Bool)) (hN : images ≠ []) (hdistinct : images.Nodup)
    (horder : (completions.map Prod.fst).Perm images) :
    (∀ k, k < images.length →
      ((ImageLoadTracker.empty.dispatchAll images).completeAll listeners
        (completions.take k)).delivered = []) ∧
    (∃ notification,
      ((ImageLoadTracker.empty.dispatchAll images).completeAll listeners completions).delivered
        = listeners.map (fun listener => (listener, notification)) ∧
      (notification = .AllImagesLoaded ↔ ∀ c ∈ completions, c.2 = true)) ∧
    (∀ j, ((ImageLoadTracker.empty.dispatchAll (images.take j)).pendingCount
        = (ImageLoadTracker.empty.dispatchAll (images.take j)).countPending)) ∧
    (∀ k, ((ImageLoadTracker.empty.dispatchAll images).completeAll listeners
          (completions.take k)).pendingCount
        = ((ImageLoadTracker.empty.dispatchAll images).completeAll listeners
          (completions.take k)).countPending) ∧
    ((ImageLoadTracker.empty.dispatchAll images).completeAll listeners completions).pendingCount
      = 0 := by
  have hlen : completions.length = images.length := by
    have := horder.length_eq
    simpa using this
  have hnodup : (completions.map Prod.fst).Nodup := horder.nodup_iff.mpr hdistinct
  obtain ⟨d1, d2, _, d4, d5⟩ := dispatchAll_fresh images ImageLoadTracker.empty hdistinct
    (fun i _ => by simp [ImageLoadTracker.empty])
  have dtracked : (ImageLoadTracker.empty.dispatchAll images).tracked = images := by
    rw [d1]
    simp [ImageLoadTracker.empty]
  have hinv0 := Invariant_dispatchAll images _ Invariant_empty
  have hcount0 : (ImageLoadTracker.empty.dispatchAll images).countPending
      = completions.length := by
    rw [hlen]
    unfold ImageLoadTracker.countPending
    rw [dtracked, List.countP_eq_length]
    intro a ha
    simp [d2 a ha]
  have hinvk : ∀ k, ((ImageLoadTracker.empty.dispatchAll images).completeAll listeners
      (completions.take k)).Invariant :=
    fun k => Invariant_completeAll listeners _ _ hinv0
  cases hcs : completions with
  | nil =>
    rw [hcs] at hlen
    exact absurd (List.length_eq_zero.mp hlen.symm) hN
  | cons c rest =>
    rw [hcs] at hnodup hcount0 horder hlen hinvk
    have hpend : ∀ x ∈ c :: rest,
        x.1 ∈ (ImageLoadTracker.empty.dispatchAll images).tracked ∧
          (ImageLoadTracker.empty.dispatchAll images).status x.1 = .Pending := by
      intro x hx
      have hxi : x.1 ∈ images := horder.mem_iff.mp (List.mem_map_of_mem Prod.fst hx)
      exact ⟨by rw [dtracked]; exact hxi, d2 x.1 hxi⟩
    obtain ⟨m1, m2, m3, m4, m5, _⟩ := completeAll_pending listeners rest c
      (ImageLoadTracker.empty.dispatchAll images) hinv0 (d4.trans rfl) (d5.trans rfl) hnodup
      hpend hcount0
    refine ⟨?_, ⟨_, m2, ?_⟩, ?_, ?_, ?_⟩
    · intro k hk
      exact m1 k (by rw [hlen]; exact hk)
    · unfold ImageLoadTracker.aggregate
      rw [m3, dtracked]
      constructor
      · intro h x hx
        have hall : (images.all fun image =>
            decide (((ImageLoadTracker.empty.dispatchAll images).completeAll listeners
              (c :: rest)).status image = .Loaded)) = true := by
          by_contra hne
          simp [hne] at h
        have hxi : x.1 ∈ images := horder.mem_iff.mp (List.mem_map_of_mem Prod.fst hx)
        have hl := List.all_eq_true.mp hall x.1 hxi
        simp only [decide_eq_true_eq] at hl
        rw [m5 x hx] at hl
        cases hx2 : x.2 with
        | true => rfl
        | false => simp [hx2] at hl
      · intro h
        have hall : (images.all fun image =>
            decide (((ImageLoadTracker.empty.dispatchAll images).completeAll listeners
              (c :: rest)).status image = .Loaded)) = true := by
          rw [List.all_eq_true]
          intro i hi
          obtain ⟨x, hx, hxi⟩ := List.mem_map.mp (horder.mem_iff.mpr hi)
          subst hxi
          simp [m5 x hx, h x hx]
        simp [hall]
    · intro j
      exact (Invariant_dispatchAll (images.take j) _ Invariant_empty).2
    · intro k
      exact (hinvk k).2
    · have hfin := (Invariant_completeAll listeners (c :: rest) _ hinv0).2
      rw [hfin]
      exact m4

/-- C20 on three images with one listener, completed in the order 2, 0, 1 with one failure:
nothing is delivered after two completions and `ImagesLoadingHadError` is delivered once after the
third. -/
theorem ImageLoadTracker_aggregate_once_witness :
    (([0, 1, 2] : List Nat) ≠ [] ∧ ([0, 1, 2] : List Nat).Nodup ∧
      (([(2, true), (0, false), (1, true)] : List (Nat × Bool)).map Prod.fst).Perm [0, 1, 2]) ∧
    ((ImageLoadTracker.empty.dispatchAll [0, 1, 2]).completeAll [7]
      (([(2, true), (0, false), (1, true)] : List (Nat × Bool)).take 2)).delivered = [] ∧
    ((ImageLoadTracker.empty.dispatchAll [0, 1, 2]).completeAll [7]
      [(2, true), (0, false), (1, true)]).delivered
        = [(7, ImageLoadNotification.ImagesLoadingHadError)] :=
  ⟨⟨by decide, by decide, by decide⟩,
    (ImageLoadTracker_aggregate_once [7] [0, 1, 2] [(2, true), (0, false), (1, true)]
      (by decide) (by decide) (by decide)).1 2 (by decide),
    by decide⟩

/-! ## Time: a bound that cannot be parsed, and the text of the time -/

/-- C22: a `Min` that `TryParseSimpleTime` does not parse is skipped, the result being that of the
same input without a `Min`, for every selected time (or none) and every `Max`; and the same for a
`Max` that does not parse. -/
theorem TimeInputValue_IsValueValid_malformed_bound (p : Platform) (input : AdaptiveTimeInput)
    (SelectedTime : Option Int) :
    (p.TryParseSimpleTime input.Min = none →
      TimeInputValue.IsValueValid p input SelectedTime
        = TimeInputValue.IsValueValid p { input with Min := "" } SelectedTime) ∧
    (p.TryParseSimpleTime input.Max = none →
      TimeInputValue.IsValueValid p input SelectedTime
        = TimeInputValue.IsValueValid p { input with Max := "" } SelectedTime) := by
  have he : ("" : String).isEmpty = true := rfl
  constructor
  · intro hparse
    cases hb : InputValue.IsValueValid input.IsRequired
        (TimeInputValue.CurrentValue SelectedTime) with
    | none => simp [TimeInputValue.IsValueValid, hb]
    | some b =>
      cases b with
      | false => simp [TimeInputValue.IsValueValid, hb]
      | true =>
        cases SelectedTime with
        | none => simp [TimeInputValue.IsValueValid, hb]
        | some currentTime =>
          cases hm : input.Min.isEmpty <;>
            simp [TimeInputValue.IsValueValid, hb, hparse, he, hm]
  · intro hparse
    cases hb : InputValue.IsValueValid input.IsRequired
        (TimeInputValue.CurrentValue SelectedTime) with
    | none => simp [TimeInputValue.IsValueValid, hb]
    | some b =>
      cases b with
      | false => simp [TimeInputValue.IsValueValid, hb]
      | true =>
        cases SelectedTime with
        | none => simp [TimeInputValue.IsValueValid, hb]
        | some currentTime =>
          cases hm : input.Max.isEmpty <;>
            simp [TimeInputValue.IsValueValid, hb, hparse, he, hm]

/-- C22 with `Min = "noon"`, which does not parse, and `Max = "10:00"`: the selected time 09:00
is valid and 11:00 is not, as without a `Min`. -/
theorem TimeInputValue_IsValueValid_malformed_bound_witness :
    examplePlatform.TryParseSimpleTime "noon" = none ∧
    TimeInputValue.IsValueValid examplePlatform ⟨true, "noon", "10:00"⟩ (some 324000000000)
      = some true ∧
    TimeInputValue.IsValueValid examplePlatform ⟨true, "noon", "10:00"⟩ (some 396000000000)
      = some false :=
  ⟨by decide,
    ((TimeInputValue_IsValueValid_malformed_bound examplePlatform ⟨true, "noon", "10:00"⟩
      (some 324000000000)).1 (by decide)).trans (by decide),
    ((TimeInputValue_IsValueValid_malformed_bound examplePlatform ⟨true, "noon", "10:00"⟩
      (some 396000000000)).1 (by decide)).trans (by decide)⟩

/-- C30: for a selected time of `t` ticks of 100 ns with `t` below 24 hours, the current value is
the five characters `HH:MM`, with `HH` the whole hours of `t` and `MM` the whole minutes of `t`
modulo 60, each as two decimal digits; seconds are dropped. With no time selected it is the empty
string. -/
theorem TimeInputValue_CurrentValue_format (t : Nat) (ht : t < 864000000000) :
    TimeInputValue.CurrentValue (some (t : Int))
      = some (twoDigits (t / 36000000000) ++ ":" ++ twoDigits (t / 600000000 % 60)) ∧
    (twoDigits (t / 36000000000) ++ ":" ++ twoDigits (t / 600000000 % 60)).length = 5 ∧
    TimeInputValue.CurrentValue none = some "" := by
  have h1 : ((t : Int).tdiv 10000000).tdiv 60 = ((t / 600000000 : Nat) : Int) := by
    rw [Int.tdiv_eq_ediv (Int.natCast_nonneg t) (by norm_num),
      Int.tdiv_eq_ediv (by omega) (by norm_num)]
    omega
  have h3 : (((t / 600000000 : Nat) : Int) % 18446744073709551616).toNat = t / 600000000 := by
    omega
  have hh : t / 600000000 / 60 = t / 36000000000 := by omega
  have hm : t / 600000000 - t / 36000000000 * 60 = t / 600000000 % 60 := by omega
  have hlen : (twoDigits (t / 36000000000) ++ ":" ++ twoDigits (t / 600000000 % 60)).length
      = 5 := rfl
  refine ⟨?_, hlen, rfl⟩
  simp only [TimeInputValue.CurrentValue, h1, h3, sprintf_s, hh, hm]
  rw [format02llu_eq_twoDigits _ (by omega), format02llu_eq_twoDigits _ (by omega), hlen]
  rfl

/-- C30 at 13:05:59, which is 471590000000 ticks: the current value is `13:05`. -/
theorem TimeInputValue_CurrentValue_format_witness :
    471590000000 < 864000000000 ∧
    TimeInputValue.CurrentValue (some 471590000000) = some "13:05" :=
  ⟨by decide, (TimeInputValue_CurrentValue_format 471590000000 (by decide)).1.trans (by decide)⟩

/-! ## Filtered choice set: several matching titles -/

/-- C28: `GetSelectedChoice` returns the last choice of the list whose lower-cased title is the
lower-cased typed text, and no choice exactly when no title matches; the current value is the
value of that last choice. -/
theorem GetSelectedChoice_last_match (p : Platform) (input : AdaptiveChoiceSetInput)
    (Text : String) :
    (∀ choice, FilteredChoiceSetInputValue.GetSelectedChoice p input Text = some choice ↔
      ∃ before after, input.Choices = before ++ choice :: after ∧
        p.ToLowercase Text = p.ToLowercase choice.Title ∧
        ∀ later ∈ after, p.ToLowercase Text ≠ p.ToLowercase later.Title) ∧
    (FilteredChoiceSetInputValue.GetSelectedChoice p input Text = none ↔
      ∀ choice ∈ input.Choices, p.ToLowercase Text ≠ p.ToLowercase choice.Title) ∧
    (∀ before choice after, input.Choices = before ++ choice :: after →
      p.ToLowercase Text = p.ToLowercase choice.Title →
      (∀ later ∈ after, p.ToLowercase Text ≠ p.ToLowercase later.Title) →
      FilteredChoiceSetInputValue.CurrentValue p input Text = choice.Value) := by
  have hsome : ∀ choice, FilteredChoiceSetInputValue.GetSelectedChoice p input Text
      = some choice ↔
      ∃ before after, input.Choices = before ++ choice :: after ∧
        p.ToLowercase Text = p.ToLowercase choice.Title ∧
        ∀ later ∈ after, p.ToLowercase Text ≠ p.ToLowercase later.Title := by
    intro choice
    rw [GetSelectedChoice_eq_find, List.find?_eq_some]
    constructor
    · rintro ⟨hmatch, as, bs, hrev, hno⟩
      refine ⟨bs.reverse, as.reverse, ?_, by simpa using hmatch, ?_⟩
      · have := congrArg List.reverse hrev
        simpa using this
      · intro later hl
        have := hno later (List.mem_reverse.mp hl)
        simpa using this
    · rintro ⟨before, after, hc, hmatch, hno⟩
      refine ⟨by simpa using hmatch, after.reverse, before.reverse, ?_, ?_⟩
      · rw [hc]
        simp
      · intro a ha
        have := hno a (List.mem_reverse.mp ha)
        simpa using this
  refine ⟨hsome, ?_, ?_⟩
  · rw [GetSelectedChoice_eq_find, List.find?_eq_none]
    simp
  · intro before choice after hc hmatch hno
    have := (hsome choice).mpr ⟨before, after, hc, hmatch, hno⟩
    simp [FilteredChoiceSetInputValue.CurrentValue, this]

/-- C28 on the choices `Red` with value `1` and `RED` with value `2`: the typed text `red` matches
both titles and the current value is `2`, the value of the later one. -/
theorem GetSelectedChoice_last_match_witness :
    FilteredChoiceSetInputValue.CurrentValue examplePlatform
      ⟨false, false, [⟨"Red", "1"⟩, ⟨"RED", "2"⟩]⟩ "red" = "2" :=
  (GetSelectedChoice_last_match examplePlatform ⟨false, false, [⟨"Red", "1"⟩, ⟨"RED", "2"⟩]⟩
    "red").2.2 [⟨"Red", "1"⟩] ⟨"RED", "2"⟩ [] rfl (by decide) (by decide)

/-! ## The described-by relationship -/

/-- C26: after `SetValidation` on an input with a validation-error element that the described-by
list held at most once, the list holds the element exactly once if the input is invalid and not at
all if it is valid, its other entries are unchanged and in their order, and a second validation
with the same outcome leaves the list as it is. -/
theorem SetValidation_DescribedBy (isInputValid : Bool) (c : ValidationControls)
    (uiValidationError : Nat) (visibility : Visibility)
    (herr : c.m_validationError = some (uiValidationError, visibility))
    (honce : c.DescribedBy.count uiValidationError ≤ 1) :
    (InputValue.SetValidation isInputValid c).DescribedBy.count uiValidationError
      = (if isInputValid then 0 else 1) ∧
    (InputValue.SetValidation isInputValid c).DescribedBy.filter
        (fun x => decide (x ≠ uiValidationError))
      = c.DescribedBy.filter (fun x => decide (x ≠ uiValidationError)) ∧
    (InputValue.SetValidation isInputValid
        (InputValue.SetValidation isInputValid c)).DescribedBy
      = (InputValue.SetValidation isInputValid c).DescribedBy := by
  obtain ⟨h1, after, h2⟩ := SetValidation_DescribedBy_eq isInputValid c uiValidationError
    visibility herr
  obtain ⟨h3, _⟩ := SetValidation_DescribedBy_eq isInputValid
    (InputValue.SetValidation isInputValid c) uiValidationError after h2
  rw [h3, h1]
  cases isInputValid with
  | true =>
    have hcount : (c.DescribedBy.erase uiValidationError).count uiValidationError = 0 := by
      rw [List.count_erase_self]
      omega
    refine ⟨by simpa using hcount, by simpa using filter_ne_erase uiValidationError c.DescribedBy,
      ?_⟩
    simp only [if_true]
    exact List.erase_of_not_mem (List.count_eq_zero.mp hcount)
  | false =>
    by_cases hmem : uiValidationError ∈ c.DescribedBy
    · have hpos := List.count_pos_iff.mpr hmem
      refine ⟨?_, by simp [hmem], by simp [hmem]⟩
      simp only [Bool.false_eq_true, if_false, hmem, if_true]
      omega
    · refine ⟨?_, ?_, by simp [hmem]⟩
      · simp [hmem, List.count_eq_zero.mpr hmem]
      · simp [hmem, List.filter_append]

/-- C26 on a list `[3, 7, 4]` with the error element 7: an invalid input keeps it, a valid input
gives `[3, 4]`, and an invalid input after that gives `[3, 4, 7]`. -/
theorem SetValidation_DescribedBy_witness :
    (([3, 7, 4] : List Nat).count 7 ≤ 1) ∧
    (InputValue.SetValidation true
      ⟨none, some (7, Visibility.Visible), [3, 7, 4], false⟩).DescribedBy.count 7 = 0 ∧
    (InputValue.SetValidation true
      ⟨none, some (7, Visibility.Visible), [3, 7, 4], false⟩).DescribedBy = [3, 4] ∧
    (InputValue.SetValidation false
      ⟨none, some (7, Visibility.Collapsed), [3, 4], true⟩).DescribedBy = [3, 4, 7] :=
  ⟨by decide,
    (SetValidation_DescribedBy true ⟨none, some (7, Visibility.Visible), [3, 7, 4], false⟩ 7
      Visibility.Visible rfl (by decide)).1,
    by decide, by decide⟩

/-! ## Utilities -/

/-- C29: `GenerateLHoverColor` keeps the alpha channel and maps each of the channels `R`, `G`, `B`
of value `c`, a byte, to `c - c / 4`; the result does not wrap around, is at most `c`, and is
monotone in `c`. -/
theorem GenerateLHoverColor_channels (originalColor : Color) (hR : originalColor.R < 256)
    (hG : originalColor.G < 256) (hB : originalColor.B < 256) :
    (GenerateLHoverColor originalColor).A = originalColor.A ∧
    ((GenerateLHoverColor originalColor).R = originalColor.R - originalColor.R / 4 ∧
      (GenerateLHoverColor originalColor).G = originalColor.G - originalColor.G / 4 ∧
      (GenerateLHoverColor originalColor).B = originalColor.B - originalColor.B / 4) ∧
    ((GenerateLHoverColor originalColor).R ≤ originalColor.R ∧
      (GenerateLHoverColor originalColor).G ≤ originalColor.G ∧
      (GenerateLHoverColor originalColor).B ≤ originalColor.B) ∧
    ((GenerateLHoverColor originalColor).R + originalColor.R / 4 = originalColor.R ∧
      (GenerateLHoverColor originalColor).G + originalColor.G / 4 = originalColor.G ∧
      (GenerateLHoverColor originalColor).B + originalColor.B / 4 = originalColor.B) ∧
    (∀ other : Color,
      (other.R ≤ originalColor.R →
        (GenerateLHoverColor other).R ≤ (GenerateLHoverColor originalColor).R) ∧
      (other.G ≤ originalColor.G →
        (GenerateLHoverColor other).G ≤ (GenerateLHoverColor originalColor).G) ∧
      (other.B ≤ originalColor.B →
        (GenerateLHoverColor other).B ≤ (GenerateLHoverColor originalColor).B)) := by
  have eR : (GenerateLHoverColor originalColor).R = originalColor.R - originalColor.R / 4 :=
    hover_channel _ hR
  have eG : (GenerateLHoverColor originalColor).G = originalColor.G - originalColor.G / 4 :=
    hover_channel _ hG
  have eB : (GenerateLHoverColor originalColor).B = originalColor.B - originalColor.B / 4 :=
    hover_channel _ hB
  refine ⟨rfl, ⟨eR, eG, eB⟩, ⟨by omega, by omega, by omega⟩, ⟨by omega, by omega, by omega⟩,
    fun other => ⟨fun h => ?_, fun h => ?_, fun h => ?_⟩⟩
  · have e : (GenerateLHoverColor other).R = other.R - other.R / 4 :=
      hover_channel _ (by omega)
    rw [e, eR]
    exact hover_channel_mono _ _ h
  · have e : (GenerateLHoverColor other).G = other.G - other.G / 4 :=
      hover_channel _ (by omega)
    rw [e, eG]
    exact hover_channel_mono _ _ h
  · have e : (GenerateLHoverColor other).B = other.B - other.B / 4 :=
      hover_channel _ (by omega)
    rw [e, eB]
    exact hover_channel_mono _ _ h

/-- C29 on the colour `(255, 255, 128, 3)`: the hover colour is `(255, 192, 96, 3)`. -/
theorem GenerateLHoverColor_channels_witness :
    ((255 : Nat) < 256 ∧ (128 : Nat) < 256 ∧ (3 : Nat) < 256) ∧
    GenerateLHoverColor ⟨255, 255, 128, 3⟩ = ⟨255, 192, 96, 3⟩ := by
  refine ⟨⟨by decide, by decide, by decide⟩, ?_⟩
  obtain ⟨h1, ⟨h2, h3, h4⟩, _⟩ :=
    GenerateLHoverColor_channels ⟨255, 255, 128, 3⟩ (by decide) (by decide) (by decide)
  have hc : ∀ c : Color, c = ⟨c.A, c.R, c.G, c.B⟩ := fun c => rfl
  rw [hc (GenerateLHoverColor ⟨255, 255, 128, 3⟩), h1, h2, h3, h4]
  decide

/-- C25: `MeetsRequirements` returns true exactly when every requirement of the element is met,
that is, the registration holds a non-empty version for its name, and its version is `*` or the
registered version is not less than the required one; it returns true for no requirements, an
unmet requirement at any position keeps it from returning true, and when no construction of a
version throws it returns, and returns false exactly when some requirement is unmet. -/
theorem MeetsRequirements_iff {V : Type} (SemanticVersion : String → Option V)
    (less : V → V → Bool) (requirements : List AdaptiveRequirement) (Get : String → String) :
    (MeetsRequirements SemanticVersion less requirements Get = some true ↔
      ∀ req ∈ requirements, requirementMet SemanticVersion less Get req) ∧
    MeetsRequirements SemanticVersion less [] Get = some true ∧
    (∀ before req after, requirements = before ++ req :: after →
      ¬ requirementMet SemanticVersion less Get req →
      MeetsRequirements SemanticVersion less requirements Get ≠ some true) ∧
    ((∀ s, (SemanticVersion s).isSome = true) →
      ∃ b, MeetsRequirements SemanticVersion less requirements Get = some b ∧
        (b = false ↔ ∃ req ∈ requirements, ¬ requirementMet SemanticVersion less Get req)) := by
  have hiff : MeetsRequirements SemanticVersion less requirements Get = some true ↔
      ∀ req ∈ requirements, requirementMet SemanticVersion less Get req := by
    unfold MeetsRequirements
    rw [MeetsRequirements_loop_true]
    simp
  refine ⟨hiff, rfl, ?_, ?_⟩
  · intro before req after hsplit hunmet htrue
    apply hunmet
    apply hiff.mp htrue
    rw [hsplit]
    simp
  · intro hparse
    obtain ⟨b, hb⟩ := MeetsRequirements_loop_total SemanticVersion less Get hparse requirements
      true
    refine ⟨b, hb, ?_⟩
    have hb' : MeetsRequirements SemanticVersion less requirements Get = some b := hb
    cases b with
    | true =>
      have := hiff.mp hb'
      constructor
      · intro h
        cases h
      · rintro ⟨req, hmem, hun⟩
        exact absurd (this req hmem) hun
    | false =>
      constructor
      · intro _
        by_contra hall
        push_neg at hall
        have := hiff.mpr hall
        rw [hb'] at this
        cases this
      · intro _
        rfl

/-- C25 with versions that are one number: the feature `a` registered at 2 meets the requirement
1, and the feature `b` registered at 2 does not meet the requirement 3, before or after it. -/
theorem MeetsRequirements_iff_witness :
    MeetsRequirements numberVersion (fun a b => decide (a < b)) [⟨"a", "1"⟩]
      (fun _ => "2") = some true ∧
    MeetsRequirements numberVersion (fun a b => decide (a < b)) [⟨"b", "3"⟩, ⟨"a", "1"⟩]
      (fun _ => "2") ≠ some true ∧
    MeetsRequirements numberVersion (fun a b => decide (a < b)) [⟨"a", "1"⟩, ⟨"b", "3"⟩]
      (fun _ => "2") = some false := by
  refine ⟨?_, ?_, by decide⟩
  · apply (MeetsRequirements_iff numberVersion (fun a b => decide (a < b)) [⟨"a", "1"⟩]
      (fun _ => "2")).1.mpr
    intro req hreq
    have : req = ⟨"a", "1"⟩ := by simpa using hreq
    subst this
    exact ⟨by decide, Or.inr ⟨1, 2, by decide, by decide, by decide⟩⟩
  · apply (MeetsRequirements_iff numberVersion (fun a b => decide (a < b))
      [⟨"b", "3"⟩, ⟨"a", "1"⟩] (fun _ => "2")).2.2.1 [] ⟨"b", "3"⟩ [⟨"a", "1"⟩] rfl
    rintro ⟨_, h | ⟨required, registered, h1, h2, h3⟩⟩
    · exact absurd h (by decide)
    · have e1 : numberVersion "3" = some 3 := by decide
      have e2 : numberVersion "2" = some 2 := by decide
      simp only [e1, e2, Option.some.injEq] at h1 h2
      subst h1 h2
      exact absurd h3 (by decide)

/-- C23: for `#` followed by exactly six hexadecimal digits of either case, `GetColorFromString`
gives the alpha 255 and the three bytes of the digit pairs as `R`, `G`, `B`; for `#` followed by
exactly eight, the first byte as alpha and the next three as `R`, `G`, `B`; for every other string
it gives the alpha 0, with all channels 0. -/
theorem GetColorFromString_spec :
    (∀ r1 r0 g1 g0 b1 b0 : Char,
      [r1, r0, g1, g0, b1, b0].all isHexDigit = true →
      GetColorFromString ⟨['#', r1, r0, g1, g0, b1, b0]⟩
        = ⟨255, hexByte r1 r0, hexByte g1 g0, hexByte b1 b0⟩) ∧
    (∀ a1 a0 r1 r0 g1 g0 b1 b0 : Char,
      [a1, a0, r1, r0, g1, g0, b1, b0].all isHexDigit = true →
      GetColorFromString ⟨['#', a1, a0, r1, r0, g1, g0, b1, b0]⟩
        = ⟨hexByte a1 a0, hexByte r1 r0, hexByte g1 g0, hexByte b1 b0⟩) ∧
    (∀ colorString : String,
      (¬ ∃ digits : List Char, colorString.data = '#' :: digits ∧
          (digits.length = 6 ∨ digits.length = 8) ∧ digits.all isHexDigit = true) →
      (GetColorFromString colorString).A = 0 ∧ GetColorFromString colorString = ⟨0, 0, 0, 0⟩) := by
  have hFF : strtol16 "FF" % 256 = 255 := by decide
  refine ⟨?_, ?_, ?_⟩
  · intro r1 r0 g1 g0 b1 b0 hhex
    have h8 : regex_match_hex 8 ⟨[r1, r0, g1, g0, b1, b0]⟩ = false := by
      simp [regex_match_hex]
    have h6 : regex_match_hex 6 ⟨[r1, r0, g1, g0, b1, b0]⟩ = true := by
      simp only [regex_match_hex, hhex]
      rfl
    have hfrom : substrFrom ⟨['#', r1, r0, g1, g0, b1, b0]⟩ 1 = ⟨[r1, r0, g1, g0, b1, b0]⟩ := rfl
    have hcond : (String.length ⟨['#', r1, r0, g1, g0, b1, b0]⟩ > 0 ∧
        (['#', r1, r0, g1, g0, b1, b0] : List Char).head? = some '#') :=
      ⟨by simp [String.length], rfl⟩
    simp only [GetColorFromString, hcond, and_self, if_true, hfrom, h8, h6, hFF,
      Bool.false_eq_true, if_false]
    have e1 : substr ⟨[r1, r0, g1, g0, b1, b0]⟩ 0 2 = ⟨[r1, r0]⟩ := rfl
    have e2 : substr ⟨[r1, r0, g1, g0, b1, b0]⟩ 2 2 = ⟨[g1, g0]⟩ := rfl
    have e3 : substr ⟨[r1, r0, g1, g0, b1, b0]⟩ 4 2 = ⟨[b1, b0]⟩ := rfl
    rw [e1, e2, e3, strtol16_two, strtol16_two, strtol16_two]
  · intro a1 a0 r1 r0 g1 g0 b1 b0 hhex
    have h8 : regex_match_hex 8 ⟨[a1, a0, r1, r0, g1, g0, b1, b0]⟩ = true := by
      simp only [regex_match_hex, hhex]
      rfl
    have hhex6 : [r1, r0, g1, g0, b1, b0].all isHexDigit = true := by
      simp only [List.all_cons, Bool.and_eq_true] at hhex ⊢
      exact hhex.2.2
    have hfrom2 : substrFrom ⟨[a1, a0, r1, r0, g1, g0, b1, b0]⟩ 2
        = ⟨[r1, r0, g1, g0, b1, b0]⟩ := rfl
    have h6 : regex_match_hex 6 ⟨[r1, r0, g1, g0, b1, b0]⟩ = true := by
      simp only [regex_match_hex, hhex6]
      rfl
    have hfrom : substrFrom ⟨['#', a1, a0, r1, r0, g1, g0, b1, b0]⟩ 1
        = ⟨[a1, a0, r1, r0, g1, g0, b1, b0]⟩ := rfl
    have hcond : (String.length ⟨['#', a1, a0, r1, r0, g1, g0, b1, b0]⟩ > 0 ∧
        (['#', a1, a0, r1, r0, g1, g0, b1, b0] : List Char).head? = some '#') :=
      ⟨by simp [String.length], rfl⟩
    simp only [GetColorFromString, hcond, and_self, if_true, hfrom, h8, hfrom2, h6]
    have e0 : substr ⟨[a1, a0, r1, r0, g1, g0, b1, b0]⟩ 0 2 = ⟨[a1, a0]⟩ := rfl
    have e1 : substr ⟨[r1, r0, g1, g0, b1, b0]⟩ 0 2 = ⟨[r1, r0]⟩ := rfl
    have e2 : substr ⟨[r1, r0, g1, g0, b1, b0]⟩ 2 2 = ⟨[g1, g0]⟩ := rfl
    have e3 : substr ⟨[r1, r0, g1, g0, b1, b0]⟩ 4 2 = ⟨[b1, b0]⟩ := rfl
    rw [e0, e1, e2, e3, strtol16_two, strtol16_two, strtol16_two, strtol16_two]
  · intro colorString hother
    have hzero : GetColorFromString colorString = ⟨0, 0, 0, 0⟩ := by
      obtain ⟨data⟩ := colorString
      cases data with
      | nil => simp [GetColorFromString, String.length]
      | cons c digits =>
        by_cases hc : c = '#'
        · subst hc
          have hfrom : substrFrom ⟨'#' :: digits⟩ 1 = ⟨digits⟩ := rfl
          have hcond : (String.length ⟨'#' :: digits⟩ > 0 ∧
              ('#' :: digits : List Char).head? = some '#') :=
            ⟨by simp [String.length], rfl⟩
          have h8 : regex_match_hex 8 ⟨digits⟩ = false := by
            cases h : regex_match_hex 8 ⟨digits⟩ with
            | false => rfl
            | true =>
              exfalso
              apply hother
              simp only [regex_match_hex, Bool.and_eq_true, beq_iff_eq] at h
              exact ⟨digits, rfl, Or.inr h.1, h.2⟩
          have h6 : regex_match_hex 6 ⟨digits⟩ = false := by
            cases h : regex_match_hex 6 ⟨digits⟩ with
            | false => rfl
            | true =>
              exfalso
              apply hother
              simp only [regex_match_hex, Bool.and_eq_true, beq_iff_eq] at h
              exact ⟨digits, rfl, Or.inl h.1, h.2⟩
          simp only [GetColorFromString, hcond, and_self, if_true, hfrom, h8, h6,
            Bool.false_eq_true, if_false]
        · have hhead : ¬ ((c :: digits : List Char).head? = some '#') := by
            simpa using hc
          simp only [GetColorFromString, hhead, and_false, if_false]
    exact ⟨by rw [hzero], hzero⟩

/-- C23 on `#FF8000`, `#80ff8000` and three strings of other forms. -/
theorem GetColorFromString_spec_witness :
    GetColorFromString "#FF8000" = ⟨255, 255, 128, 0⟩ ∧
    GetColorFromString "#80ff8000" = ⟨128, 255, 128, 0⟩ ∧
    GetColorFromString "FF8000" = ⟨0, 0, 0, 0⟩ ∧
    GetColorFromString "#FF80" = ⟨0, 0, 0, 0⟩ ∧
    GetColorFromString "#GG8000" = ⟨0, 0, 0, 0⟩ := by
  refine ⟨?_, ?_, ?_, by decide, by decide⟩
  · exact (GetColorFromString_spec.1 'F' 'F' '8' '0' '0' '0' (by decide)).trans (by decide)
  · exact (GetColorFromString_spec.2.1 '8' '0' 'f' 'f' '8' '0' '0' '0' (by decide)).trans
      (by decide)
  · exact (GetColorFromString_spec.2.2 "FF8000" (by
      rintro ⟨digits, h, _⟩
      have h2 : ("FF8000" : String).data.head? = some '#' := by
        rw [h]
        rfl
      exact absurd h2 (by decide))).2

/-! ## `BuildImage` -/

/-- C21, what the code computes: `GetUrlFromString` gives the URI that the first constructor
gives and throws when that constructor throws; it never returns null and never reads the image
base URL. So `BuildImage` on a URL string that is not a URI raises the error of the constructor,
with no outcome, and the branch that adds the warning `AssetLoadFailed` and returns no element is
never taken: a call that returns has added no warning and has built an element. -/
theorem BuildImage_unresolvable_raises (self : XamlBuilder) (u : UriConstructors)
    (adaptiveImage : AdaptiveImage) (hostConfig : AdaptiveHostConfig)
    (resolvers : Option (List String)) (parentElement : Option Nat) (uiElement container : Nat) :
    (∀ urlString, GetUrlFromString u hostConfig urlString = (u.CreateUri urlString).map some) ∧
    (∀ urlString, GetUrlFromString u hostConfig urlString ≠ some none) ∧
    (u.CreateUri adaptiveImage.Url = none →
      self.BuildImage u adaptiveImage hostConfig resolvers parentElement uiElement container
        = none) ∧
    (∀ outcome,
      self.BuildImage u adaptiveImage hostConfig resolvers parentElement uiElement container
        = some outcome →
      outcome.warnings = [] ∧ outcome.frameworkElement ≠ none ∧
        ∃ imageUrl, u.CreateUri adaptiveImage.Url = some imageUrl) := by
  have hget : ∀ urlString,
      GetUrlFromString u hostConfig urlString = (u.CreateUri urlString).map some := by
    intro urlString
    cases h : u.CreateUri urlString <;> simp [GetUrlFromString, h]
  refine ⟨hget, ?_, ?_, ?_⟩
  · intro urlString
    rw [hget]
    cases u.CreateUri urlString <;> simp
  · intro hthrow
    have hurl : GetUrlFromString u hostConfig adaptiveImage.Url = none := by
      rw [hget, hthrow]
      rfl
    simp only [XamlBuilder.BuildImage, hurl]
  · intro outcome hrun
    cases hc : u.CreateUri adaptiveImage.Url with
    | none =>
      have hurl : GetUrlFromString u hostConfig adaptiveImage.Url = none := by
        rw [hget, hc]
        rfl
      simp [XamlBuilder.BuildImage, hurl] at hrun
    | some imageUrl =>
      have hurl : GetUrlFromString u hostConfig adaptiveImage.Url = some (some imageUrl) := by
        rw [hget, hc]
        rfl
      simp only [XamlBuilder.BuildImage, hurl, Option.some.injEq] at hrun
      subst hrun
      exact ⟨rfl, by simp, imageUrl, rfl⟩

/-- C21 on the URL `picture`, which has no scheme, with the image base URL `https://host/`: the
constructor throws, the base URL is not tried, and `BuildImage` raises the error. -/
theorem BuildImage_unresolvable_raises_witness :
    exampleUri.CreateUri "picture" = none ∧
    exampleUri.CreateWithRelativeUri "https://host/" "picture"
      = some ⟨"https", "//host/picture"⟩ ∧
    (XamlBuilder.new [5] false).BuildImage exampleUri
        ⟨"picture", 0, 0, ImageSize.None, ImageStyle.Default, "", true⟩
        { exampleHostConfig with ImageBaseUrl := "https://host/" } none none 1 2 = none :=
  ⟨by decide, by decide,
    (BuildImage_unresolvable_raises (XamlBuilder.new [5] false) exampleUri
      ⟨"picture", 0, 0, ImageSize.None, ImageStyle.Default, "", true⟩
      { exampleHostConfig with ImageBaseUrl := "https://host/" } none none 1 2).2.2.1
      (by decide)⟩

/-- C27: for an image whose URL resolves, `BuildImage` starts the load by `SetImageOnUIElement`
with `isAutoSize` true exactly when the image has no explicit pixel width and no explicit pixel
height and its effective size, its own size or the default image size of the host config when its
own is `None`, is `Auto`. -/
theorem BuildImage_isAutoSize (self : XamlBuilder) (u : UriConstructors)
    (adaptiveImage : AdaptiveImage) (hostConfig : AdaptiveHostConfig)
    (resolvers : Option (List String)) (parentElement : Option Nat) (uiElement container : Nat)
    (imageUrl : Uri)
    (hurl : GetUrlFromString u hostConfig adaptiveImage.Url = some (some imageUrl)) :
    ∃ outcome imageContainer,
      self.BuildImage u adaptiveImage hostConfig resolvers parentElement uiElement container
        = some outcome ∧
      (outcome.xamlBuilder, outcome.calls)
        = self.SetImageOnUIElement imageUrl.SchemeName uiElement resolvers
            (decide (adaptiveImage.PixelWidth = 0 ∧ adaptiveImage.PixelHeight = 0 ∧
              (if adaptiveImage.Size = ImageSize.None then hostConfig.ImageSize
                else adaptiveImage.Size) = ImageSize.Auto))
            parentElement imageContainer adaptiveImage.IsVisible := by
  have hsize : ∀ (w h : Nat),
      decide ((if (if (!(w != 0 || h != 0)) = true then adaptiveImage.Size else ImageSize.None)
            = ImageSize.None ∧ (w != 0 || h != 0) = false then hostConfig.ImageSize
          else (if (!(w != 0 || h != 0)) = true then adaptiveImage.Size else ImageSize.None))
        = ImageSize.Auto)
      = decide (w = 0 ∧ h = 0 ∧
          (if adaptiveImage.Size = ImageSize.None then hostConfig.ImageSize
            else adaptiveImage.Size) = ImageSize.Auto) := by
    intro w h
    by_cases hw : w = 0 <;> by_cases hh : h = 0 <;>
      by_cases hs : adaptiveImage.Size = ImageSize.None <;> simp [hw, hh, hs]
  cases hrun : self.BuildImage u adaptiveImage hostConfig resolvers parentElement uiElement
      container with
  | none => simp [XamlBuilder.BuildImage, hurl] at hrun
  | some outcome =>
    refine ⟨outcome,
      if decide (adaptiveImage.Style = ImageStyle.Person) = true then uiElement
      else if (!adaptiveImage.BackgroundColor.isEmpty) = true then container else uiElement,
      rfl, ?_⟩
    simp only [XamlBuilder.BuildImage, hurl, Option.some.injEq] at hrun
    rw [← hrun]
    simp only [hsize]

/-- C27 on two images: no pixel sizes and the size left to the host config, whose default is
`Auto`, gives `isAutoSize` true, seen in the call of `SetAutoSize` that collapses the image while
it loads; an explicit pixel width gives false, whatever the size. -/
theorem BuildImage_isAutoSize_witness :
    GetUrlFromString exampleUri exampleHostConfig "https://host/a.png"
      = some (some ⟨"https", "//host/a.png"⟩) ∧
    (∃ outcome,
      (XamlBuilder.new [] true).BuildImage exampleUri
          ⟨"https://host/a.png", 0, 0, ImageSize.None, ImageStyle.Default, "", true⟩
          exampleHostConfig none (some 9) 1 2 = some outcome ∧
      ImageCall.VisibilityCollapsed 1 ∈ outcome.calls) ∧
    (∃ outcome,
      (XamlBuilder.new [] true).BuildImage exampleUri
          ⟨"https://host/a.png", 50, 0, ImageSize.Auto, ImageStyle.Default, "", true⟩
          exampleHostConfig none (some 9) 1 2 = some outcome ∧
      ImageCall.VisibilityCollapsed 1 ∉ outcome.calls) := by
  have hurl : GetUrlFromString exampleUri exampleHostConfig "https://host/a.png"
      = some (some ⟨"https", "//host/a.png"⟩) := by decide
  refine ⟨hurl, ?_, ?_⟩
  · obtain ⟨outcome, imageContainer, h1, h2⟩ := BuildImage_isAutoSize (XamlBuilder.new [] true)
      exampleUri ⟨"https://host/a.png", 0, 0, ImageSize.None, ImageStyle.Default, "", true⟩
      exampleHostConfig none (some 9) 1 2 ⟨"https", "//host/a.png"⟩ hurl
    have hc : outcome.calls = _ := congrArg Prod.snd h2
    refine ⟨outcome, h1, ?_⟩
    rw [hc]
    simp [XamlBuilder.SetImageOnUIElement, XamlBuilder.SetAutoSize, XamlBuilder.new,
      exampleHostConfig]
  · obtain ⟨outcome, imageContainer, h1, h2⟩ := BuildImage_isAutoSize (XamlBuilder.new [] true)
      exampleUri ⟨"https://host/a.png", 50, 0, ImageSize.Auto, ImageStyle.Default, "", true⟩
      exampleHostConfig none (some 9) 1 2 ⟨"https", "//host/a.png"⟩ hurl
    have hc : outcome.calls = _ := congrArg Prod.snd h2
    refine ⟨outcome, h1, ?_⟩
    rw [hc]
    simp [XamlBuilder.SetImageOnUIElement, XamlBuilder.SetAutoSize, XamlBuilder.new]

end AdaptiveCards.Rendering.Uwp
